import Mathlib

/-!
Verification of the calabash-ios-uitest Bitrise step.

The Go sources are shallowly embedded:

* the pure text transforms (`calabashCucumberFromGemfileLockContent`,
  `getLatestIOSVersion`, `getSimulatorInfo`) become Lean functions over
  `List Char` / association lists;
* the `main` functions of the two Go variants become trace semantics: a
  `World` record supplies the outcome of every external operation (path
  checks, simulator queries, subprocess runs), and `run` produces the list
  of observable effects (commands run, `envman` exports, the exit code).

Strings are handled as `List Char` internally so that every definition
reduces inside the kernel.
-/

namespace Calabash

/-- Splits a character list at every occurrence of the separator character,
mirroring Go `strings.Split` (the separator is dropped, empty fields kept). -/
def splitOnChar (sep : Char) : List Char → List (List Char)
  | [] => [[]]
  | c :: cs =>
    match splitOnChar sep cs with
    | [] => [[c]]
    | r :: rs => if c = sep then [] :: r :: rs else (c :: r) :: rs

/-- Substring test: the pattern occurs contiguously somewhere in the list
(Go `strings.Contains`). -/
def containsChars (pat : List Char) : List Char → Bool
  | [] => pat.isEmpty
  | c :: cs => pat.isPrefixOf (c :: cs) || containsChars pat cs

/-- Mirrors Go `strings.Contains(line, "specs:")`. -/
def containsSpecs (l : List Char) : Bool := containsChars ("specs:".data) l

/-- Mirrors Go `strings.Trim(line, " ") == ""`: the line consists of spaces only. -/
def isBlankLine (l : List Char) : Bool := l.all (fun c => c = ' ')

/-- The scanning loop of `calabashCucumberFromGemfileLockContent` (src/main.go
lines 136-150): once a line containing `specs:` is seen the flag is set, every
subsequent line is collected, and the whole scan stops at the first line that
is empty after trimming spaces. -/
def relevantLines : List (List Char) → Bool → List (List Char)
  | [], _ => []
  | l :: ls, specsStart =>
    let started := specsStart || containsSpecs l
    if isBlankLine l then []
    else (if started then [l] else []) ++ relevantLines ls started

/-- The literal part of the pattern `calabash-cucumber \((.+)\)`. -/
def gemLit : List Char := "calabash-cucumber (".data

/-- Index of the last occurrence of a character in a list. -/
def lastIdxOf (t : Char) : List Char → Option Nat
  | [] => none
  | c :: cs =>
    match lastIdxOf t cs with
    | some j => some (j + 1)
    | none => if c = t then some 0 else none

/-- Greedy match of `(.+)\)` against `rest`: the capture extends to the last
closing parenthesis, which must leave at least one captured character. -/
def greedyCapture (rest : List Char) : Option (List Char) :=
  match lastIdxOf ')' rest with
  | some j => if 1 ≤ j then some (rest.take j) else none
  | none => none

/-- Leftmost-first match of the Go regular expression
`calabash-cucumber \((.+)\)` on one line, returning the capture group:
the earliest position where the literal occurs and a valid greedy capture
follows wins. -/
def findCapture : List Char → Option (List Char)
  | [] => none
  | c :: cs =>
    match (if gemLit.isPrefixOf (c :: cs) then greedyCapture ((c :: cs).drop gemLit.length) else none) with
    | some cap => some cap
    | none => findCapture cs

/-- Embedding of `calabashCucumberFromGemfileLockContent` (src/main.go
lines 132-161, identical in both unnamed Go variants). -/
def calabashCucumberFromGemfileLockContent (content : String) : String :=
  match (relevantLines (splitOnChar '\n' content.data) false).findSome? (fun l => findCapture l) with
  | some cap => ⟨cap⟩
  | none => ""

/-- Spec-side reading of claim C4: the block is the run of non-blank lines
that starts at the first line containing `specs:`; the version is the capture
from the first matching line of that block, the empty string otherwise. -/
def extractFromSpecsBlock (content : String) : String :=
  match (((splitOnChar '\n' content.data).dropWhile (fun l => !containsSpecs l)).takeWhile
      (fun l => !isBlankLine l)).findSome? (fun l => findCapture l) with
  | some cap => ⟨cap⟩
  | none => ""

/-- Amended block: the scan stops at the first blank line of the entire
content, so the block is the part of the leading blank-free section from the
first `specs:` line on. -/
def extractFromTruncatedBlock (content : String) : String :=
  match (((splitOnChar '\n' content.data).takeWhile (fun l => !isBlankLine l)).dropWhile
      (fun l => !containsSpecs l)).findSome? (fun l => findCapture l) with
  | some cap => ⟨cap⟩
  | none => ""

/-- Decimal value of a digit string. -/
def digitsToNat (cs : List Char) : Nat := cs.foldl (fun n c => n * 10 + (c.toNat - 48)) 0

/-- Pads a segment list with zeros up to the given length. -/
def padTo (l : List Nat) (n : Nat) : List Nat := l ++ List.replicate (n - l.length) 0

/-- Segment at an index, reading missing segments as zero (the padding
convention of hashicorp go-version comparison). -/
def segAt (l : List Nat) (i : Nat) : Nat := l.getD i 0

/-- Lexicographic comparison of segment lists of equal length. -/
def cmpList : List Nat → List Nat → Ordering
  | [], [] => .eq
  | [], _ :: _ => .lt
  | _ :: _, [] => .gt
  | x :: xs, y :: ys => if x < y then .lt else if y < x then .gt else cmpList xs ys

/-- The segment comparison of hashicorp go-version `(*Version).Compare` (its
jagged loop over two segment slices): both slices are padded with zeros to a
common length and compared lexicographically — the loop breaks with equality
exactly when the remaining segments of the longer slice are all zero. -/
def cmpSegs (a b : List Nat) : Ordering :=
  cmpList (padTo a (max a.length b.length)) (padTo b (max a.length b.length))

/-- The largest value `strconv.ParseInt(str, 10, 64)` accepts. -/
def maxInt64 : Nat := 9223372036854775807

/-- The character class `[0-9A-Za-z-~]` of the go-version regular expression,
used by its prerelease and metadata groups. -/
def preChar (c : Char) : Bool := c.isDigit || c.isAlpha || c = '-' || c = '~'

/-- A dot-separated identifier over `preChar` characters with nonempty
parts: the language of the prerelease and metadata captures of the
go-version regular expression. -/
def validP (cs : List Char) : Bool :=
  (splitOnChar '.' cs).all (fun p => !p.isEmpty && p.all preChar)

/-- Model of `strconv.ParseInt(str, 10, 64)` on a prerelease part: the flag
says whether parsing succeeded, and the value is the one Go reports — the
parsed value on success, `0` on a syntax error and the clamped extreme on a
range error (both of which `comparePart` goes on to use). -/
def parseIntPart : List Char → Bool × Int
  | '+' :: ds =>
    if !ds.isEmpty && ds.all Char.isDigit then
      if digitsToNat ds ≤ maxInt64 then (true, (digitsToNat ds : Int))
      else (false, (maxInt64 : Int))
    else (false, 0)
  | '-' :: ds =>
    if !ds.isEmpty && ds.all Char.isDigit then
      if digitsToNat ds ≤ maxInt64 + 1 then (true, -(digitsToNat ds : Int))
      else (false, -((maxInt64 : Int) + 1))
    else (false, 0)
  | ds =>
    if !ds.isEmpty && ds.all Char.isDigit then
      if digitsToNat ds ≤ maxInt64 then (true, (digitsToNat ds : Int))
      else (false, (maxInt64 : Int))
    else (false, 0)

/-- Go string `>` (byte order; the compared parts are ASCII). -/
def goStrGt : List Char → List Char → Bool
  | [], _ => false
  | _ :: _, [] => true
  | a :: as, b :: bs =>
    if b.toNat < a.toNat then true
    else if a.toNat < b.toNat then false
    else goStrGt as bs

/-- Model of `comparePart` of hashicorp go-version: equal parts are equal; an
empty part is below numeric parts and above textual ones; numeric parts sort
below textual parts and among themselves by value; textual parts sort by Go
string order; the final fallback compares the integer values reported by
`strconv.ParseInt`, error values included, exactly as the Go code does. -/
def comparePart (a b : List Char) : Ordering :=
  if a = b then .eq
  else if a.isEmpty then (if (parseIntPart b).1 then .lt else .gt)
  else if b.isEmpty then (if (parseIntPart a).1 then .gt else .lt)
  else if (parseIntPart a).1 && !(parseIntPart b).1 then .lt
  else if !(parseIntPart a).1 && (parseIntPart b).1 then .gt
  else if !(parseIntPart a).1 && !(parseIntPart b).1 && goStrGt a b then .gt
  else if (parseIntPart a).2 > (parseIntPart b).2 then .gt
  else .lt

/-- Tail of the `comparePrereleases` loop once the left identifier has run
out of parts: the missing left parts read as empty strings. -/
def cmpEmptyAgainst : List (List Char) → Ordering
  | [] => .eq
  | b :: bs =>
    match comparePart [] b with
    | .eq => cmpEmptyAgainst bs
    | o => o

/-- Tail of the `comparePrereleases` loop once the right identifier has run
out of parts: the missing right parts read as empty strings. -/
def cmpAgainstEmpty : List (List Char) → Ordering
  | [] => .eq
  | a :: as =>
    match comparePart a [] with
    | .eq => cmpAgainstEmpty as
    | o => o

/-- The part-by-part loop of `comparePrereleases`: the first part comparison
that is not equality decides, and missing parts of the shorter identifier
read as empty strings. -/
def comparePartsList : List (List Char) → List (List Char) → Ordering
  | [], bs => cmpEmptyAgainst bs
  | a :: as, [] =>
    match comparePart a [] with
    | .eq => cmpAgainstEmpty as
    | o => o
  | a :: as, b :: bs =>
    match comparePart a b with
    | .eq => comparePartsList as bs
    | o => o

/-- Model of `comparePrereleases` of hashicorp go-version: identical
prerelease strings are equal, and otherwise the dot-separated parts are
compared in order by `comparePart`. -/
def comparePrereleases (p q : List Char) : Ordering :=
  if p = q then .eq
  else comparePartsList (splitOnChar '.' p) (splitOnChar '.' q)

/-- A parsed hashicorp go-version `Version`: the numeric segments (padded to
at least three entries), the prerelease capture and the build-metadata
capture (the latter never influences comparison). -/
structure GoVersion where
  segments : List Nat
  pre : List Char
  metadata : List Char
deriving Repr, DecidableEq

/-- Model of hashicorp go-version `(*Version).Compare`: versions with the
same segment slice are ordered by prerelease — a release outranks any
prerelease, two prereleases compare by `comparePrereleases` — and versions
with different segment slices compare numerically by `cmpSegs`. -/
def GoVersion.compare (v w : GoVersion) : Ordering :=
  if v.segments = w.segments then
    if v.pre.isEmpty && w.pre.isEmpty then .eq
    else if v.pre.isEmpty then .gt
    else if w.pre.isEmpty then .lt
    else comparePrereleases v.pre w.pre
  else cmpSegs v.segments w.segments

/-- The `v?` prefix of the version regular expression. -/
def stripV : List Char → List Char
  | 'v' :: rest => rest
  | cs => cs

/-- A character the numeric core `[0-9]+(.[0-9]+)*` of the version regular
expression is made of; the core is the maximal leading run of these. -/
def isCoreChar (c : Char) : Bool := c.isDigit || c = '.'

/-- The prerelease capture on the text between the numeric core and the
build metadata: empty text gives an empty prerelease; a leading hyphen is
consumed when the remainder is a valid dotted identifier; the whole text
(hyphen included) is the capture when only it is one; any other text fails
the match. -/
def preCapture : List Char → Option (List Char)
  | [] => some []
  | '-' :: preTail =>
    if validP preTail then some preTail
    else if validP ('-' :: preTail) then some ('-' :: preTail)
    else none
  | rest => if validP rest then some rest else none

/-- The build-metadata capture: the text after the first `+` must be a valid
dotted identifier; without a `+` the metadata is empty. -/
def metaCapture : List Char → Option (List Char)
  | [] => some []
  | _ :: metaCs => if validP metaCs then some metaCs else none

/-- The dot-separated fields of the numeric core of a version string: the
maximal leading digits-and-dots run after the optional `v`. -/
def coreParts (cs : List Char) : List (List Char) :=
  splitOnChar '.' ((stripV cs).takeWhile isCoreChar)

/-- Model of `version.NewVersion` of hashicorp go-version (src/main.go line
72): the string must match the anchored version regular expression — an
optional `v`, a nonempty dotted numeric core, an optional prerelease and
optional build metadata over the class `[0-9A-Za-z-~]` — and every core
segment must fit a signed 64-bit integer (`strconv.ParseInt(str, 10, 64)`);
the segment list is padded with zeros to at least three entries exactly as
the library does. -/
def newVersion (cs : List Char) : Option GoVersion :=
  match metaCapture ((stripV cs).dropWhile (fun c => !(c == '+'))) with
  | none => none
  | some md =>
    match preCapture (((stripV cs).takeWhile (fun c => !(c == '+'))).dropWhile isCoreChar) with
    | none => none
    | some pr =>
      if (coreParts cs).all (fun p => !p.isEmpty && p.all Char.isDigit) then
        if (coreParts cs).all (fun p => digitsToNat p ≤ maxInt64) then
          some ⟨padTo ((coreParts cs).map digitsToNat) 3, pr, md⟩
        else none
      else none

/-- Whitespace test used by Go `strings.TrimSpace`. -/
def isSpaceChar (c : Char) : Bool := c.isWhitespace

/-- Trims whitespace from both ends, mirroring Go `strings.TrimSpace`. -/
def trimChars (cs : List Char) : List Char :=
  ((cs.dropWhile isSpaceChar).reverse.dropWhile isSpaceChar).reverse

/-- Simulator descriptor (go-xcode `simulator.InfoModel`). -/
structure InfoModel where
  name : String
  id : String
  status : String
deriving Repr, DecidableEq

/-- go-xcode `simulator.OsVersionSimulatorInfosMap`, as an association list;
the Go map iterates its keys in an arbitrary order, which the theorems model
by quantifying over permutations of the entry list. -/
abbrev OsVersionSimulatorInfosMap := List (String × List InfoModel)

/-- Mirrors `strings.HasPrefix(osVersion, "iOS")`. -/
def iosKey (k : String) : Bool := ("iOS".data).isPrefixOf k.data

/-- The version string of an `iOS`-keyed entry: the key with the `iOS` marker
removed and surrounding whitespace trimmed, parsed as a version. -/
def iosVersionOf (k : String) : Option GoVersion :=
  newVersion (trimChars (k.data.drop 3))

/-- The running maximum of `getLatestIOSVersion` projected to segment
slices: the accumulated slice is replaced when the new one compares
strictly greater under `cmpSegs`. The version-level step `maxStepV`
projects onto this one. -/
def maxStep : Option (List Nat) → List Nat → Option (List Nat)
  | none, v => some v
  | some m, v => if cmpSegs v m = .gt then some v else some m

/-- One step of the running maximum in `getLatestIOSVersion`: the new
version replaces the accumulator when `GreaterThan` holds (src/main.go line
77). -/
def maxStepV : Option GoVersion → GoVersion → Option GoVersion
  | none, v => some v
  | some m, v => if GoVersion.compare v m = .gt then some v else some m

/-- The key loop of `getLatestIOSVersion` (src/main.go lines 64-80): skip
keys without the `iOS` marker, fail on the first key whose version does not
parse, and keep the running maximum otherwise. -/
def getLatestIOSVersionAux : OsVersionSimulatorInfosMap → Option GoVersion → Except String (Option GoVersion)
  | [], acc => .ok acc
  | (k, _) :: rest, acc =>
    if iosKey k then
      match iosVersionOf k with
      | none => .error ("Failed to parse version (" ++ (⟨trimChars (k.data.drop 3)⟩ : String) ++ ")")
      | some v => getLatestIOSVersionAux rest (maxStepV acc v)
    else getLatestIOSVersionAux rest acc

/-- The `fmt.Sprintf("iOS %d.%d", versionSegments[0], versionSegments[1])`
result string. -/
def renderIOS (v : List Nat) : String :=
  "iOS " ++ Nat.repr (segAt v 0) ++ "." ++ Nat.repr (segAt v 1)

/-- Embedding of `getLatestIOSVersion` (src/main.go lines 62-92). -/
def getLatestIOSVersion (m : OsVersionSimulatorInfosMap) : Except String String :=
  match getLatestIOSVersionAux m none with
  | .error e => .error e
  | .ok none => .error "Failed to determin latest iOS simulator version"
  | .ok (some v) =>
    if v.segments.length < 2 then .error "Invalid version created: segments count < 2"
    else .ok (renderIOS v.segments)

/-- Embedding of `getSimulatorInfo` (src/main.go lines 94-120); the simulator
query result is supplied as the map argument. -/
def getSimulatorInfo (m : OsVersionSimulatorInfosMap) (osVersion deviceName : String) : Except String InfoModel :=
  match (if osVersion = "latest" then getLatestIOSVersion m else .ok osVersion) with
  | .error e => .error e
  | .ok osv =>
    match m.lookup osv with
    | none => .error ("No simulators found for os version: " ++ osv)
    | some infos =>
      match infos.find? (fun i => i.name == deviceName) with
      | none => .error ("No simulators found for os version: (" ++ osv ++ "), device name: (" ++ deviceName ++ ")")
      | some info => .ok info

example : calabashCucumberFromGemfileLockContent
    "GEM\n  remote: https://rubygems.org/\n  specs:\n    calabash-cucumber (0.20.5)\n      edn (~> 1.0)\n\nPLATFORMS\n" = "0.20.5" := rfl

example : calabashCucumberFromGemfileLockContent "\nspecs:\n  calabash-cucumber (1.2.3)" = "" := rfl

example : extractFromSpecsBlock "\nspecs:\n  calabash-cucumber (1.2.3)" = "1.2.3" := rfl

example : getLatestIOSVersion [("iOS 8.4", []), ("tvOS 9.0", []), ("iOS 10.1", [])] = .ok "iOS 10.1" := rfl

example : getLatestIOSVersion [("tvOS 9.0", [])] =
    .error "Failed to determin latest iOS simulator version" := rfl

example : newVersion "v8.4".data = some ⟨[8, 4, 0], [], []⟩ := rfl

example : newVersion "8.4.1-beta".data = some ⟨[8, 4, 1], "beta".data, []⟩ := rfl

example : newVersion "8.4+build".data = some ⟨[8, 4, 0], [], "build".data⟩ := rfl

example : newVersion "9223372036854775808.0".data = none := rfl

example : newVersion "8..4".data = none := rfl

example : getLatestIOSVersion [("iOS v8.4", [])] = .ok "iOS 8.4" := rfl

example : getLatestIOSVersion [("iOS 8.4-beta", []), ("iOS 8.4", [])] = .ok "iOS 8.4" := rfl

example : GoVersion.compare ⟨[1, 0, 0], "alpha".data, []⟩ ⟨[1, 0, 0], "beta".data, []⟩ = .lt := rfl

example : GoVersion.compare ⟨[1, 0, 0], "2".data, []⟩ ⟨[1, 0, 0], "beta".data, []⟩ = .lt := rfl

example : getSimulatorInfo [("iOS 8.4", [⟨"iPhone 6", "UDID-1", "Shutdown"⟩])] "latest" "iPhone 6" =
    .ok ⟨"iPhone 6", "UDID-1", "Shutdown"⟩ := rfl

/-! ### Order-theoretic facts about the version comparison -/

theorem cmpList_self : ∀ l : List Nat, cmpList l l = .eq := by
  intro l
  induction l with
  | nil => rfl
  | cons x xs ih => simp [cmpList, ih]

theorem cmpList_append {a b : List Nat} (c d : List Nat) (h : a.length = b.length) :
    cmpList (a ++ c) (b ++ d) = (cmpList a b).then (cmpList c d) := by
  induction a generalizing b with
  | nil =>
    cases b with
    | nil => simp [cmpList, Ordering.then]
    | cons y ys => simp at h
  | cons x xs ih =>
    cases b with
    | nil => simp at h
    | cons y ys =>
      simp only [List.cons_append, cmpList]
      by_cases h1 : x < y
      · simp [h1, Ordering.then]
      · by_cases h2 : y < x
        · simp [h1, h2, Ordering.then]
        · simp [h1, h2, ih (by simpa using h)]

theorem padTo_length (l : List Nat) (n : Nat) : (padTo l n).length = max l.length n := by
  simp [padTo]
  omega

theorem padTo_length_of_le {l : List Nat} {n : Nat} (h : l.length ≤ n) :
    (padTo l n).length = n := by
  rw [padTo_length]
  exact Nat.max_eq_right h

theorem padTo_add {l : List Nat} {n m : Nat} (h1 : l.length ≤ n) (h2 : n ≤ m) :
    padTo l m = padTo l n ++ List.replicate (m - n) 0 := by
  simp only [padTo, List.append_assoc, ← List.replicate_add]
  congr 2
  omega

theorem cmpSegs_padded {a b : List Nat} {n : Nat} (ha : a.length ≤ n) (hb : b.length ≤ n) :
    cmpList (padTo a n) (padTo b n) = cmpSegs a b := by
  unfold cmpSegs
  have haN : a.length ≤ max a.length b.length := le_max_left _ _
  have hbN : b.length ≤ max a.length b.length := le_max_right _ _
  have hNn : max a.length b.length ≤ n := max_le ha hb
  rw [padTo_add haN hNn, padTo_add hbN hNn,
    cmpList_append _ _ (by rw [padTo_length_of_le haN, padTo_length_of_le hbN])]
  cases h : cmpList (padTo a (max a.length b.length)) (padTo b (max a.length b.length)) <;>
    simp [Ordering.then, cmpList_self]

theorem cmpSegs_self (a : List Nat) : cmpSegs a a = .eq := by
  unfold cmpSegs
  exact cmpList_self _

theorem cmpList_swap : ∀ {a b : List Nat}, a.length = b.length →
    cmpList b a = (cmpList a b).swap := by
  intro a
  induction a with
  | nil =>
    intro b h
    cases b with
    | nil => rfl
    | cons y ys => simp at h
  | cons x xs ih =>
    intro b h
    cases b with
    | nil => simp at h
    | cons y ys =>
      simp only [cmpList]
      by_cases h1 : x < y
      · simp [h1, Nat.lt_asymm h1, Ordering.swap]
      · by_cases h2 : y < x
        · simp [h1, h2, Ordering.swap]
        · simp [h1, h2, ih (by simpa using h)]

theorem cmpSegs_swap (a b : List Nat) : cmpSegs b a = (cmpSegs a b).swap := by
  have ha : a.length ≤ max a.length b.length := le_max_left _ _
  have hb : b.length ≤ max a.length b.length := le_max_right _ _
  rw [← cmpSegs_padded (n := max a.length b.length) hb ha,
    ← cmpSegs_padded (n := max a.length b.length) ha hb]
  exact cmpList_swap (by rw [padTo_length_of_le hb, padTo_length_of_le ha])

theorem cmpList_le_trans : ∀ {a b c : List Nat}, a.length = b.length → b.length = c.length →
    cmpList a b ≠ .gt → cmpList b c ≠ .gt → cmpList a c ≠ .gt := by
  intro a
  induction a with
  | nil =>
    intro b c hab hbc h1 h2
    cases c with
    | nil => simp [cmpList]
    | cons z zs => simp [cmpList]
  | cons x xs ih =>
    intro b c hab hbc h1 h2
    cases b with
    | nil => simp at hab
    | cons y ys =>
      cases c with
      | nil => simp at hbc
      | cons z zs =>
        simp only [cmpList] at h1 h2 ⊢
        by_cases hxy : x < y
        · by_cases hyz : y < z
          · simp [Nat.lt_trans hxy hyz]
          · by_cases hzy : z < y
            · simp [hyz, hzy] at h2
            · have hyzeq : y = z := Nat.le_antisymm (Nat.le_of_not_lt hzy) (Nat.le_of_not_lt hyz)
              subst hyzeq
              simp [hxy]
        · by_cases hyx : y < x
          · simp [hxy, hyx] at h1
          · have hxyeq : x = y := Nat.le_antisymm (Nat.le_of_not_lt hyx) (Nat.le_of_not_lt hxy)
            subst hxyeq
            by_cases hxz : x < z
            · simp [hxz]
            · by_cases hzx : z < x
              · simp [hxz, hzx] at h2
              · simp [hxy, hxz, hzx] at h1 h2 ⊢
                exact ih (by simpa using hab) (by simpa using hbc) h1 h2

theorem cmpSegs_le_trans {a b c : List Nat} (h1 : cmpSegs a b ≠ .gt) (h2 : cmpSegs b c ≠ .gt) :
    cmpSegs a c ≠ .gt := by
  have ha : a.length ≤ max a.length (max b.length c.length) := le_max_left _ _
  have hb : b.length ≤ max a.length (max b.length c.length) :=
    (le_max_left b.length c.length).trans (le_max_right _ _)
  have hc : c.length ≤ max a.length (max b.length c.length) :=
    (le_max_right b.length c.length).trans (le_max_right _ _)
  rw [← cmpSegs_padded ha hb] at h1
  rw [← cmpSegs_padded hb hc] at h2
  rw [← cmpSegs_padded ha hc]
  exact cmpList_le_trans (by rw [padTo_length_of_le ha, padTo_length_of_le hb])
    (by rw [padTo_length_of_le hb, padTo_length_of_le hc]) h1 h2

theorem cmpList_eq_iff : ∀ {a b : List Nat}, a.length = b.length →
    (cmpList a b = .eq ↔ a = b) := by
  intro a
  induction a with
  | nil =>
    intro b h
    cases b with
    | nil => simp [cmpList]
    | cons y ys => simp at h
  | cons x xs ih =>
    intro b h
    cases b with
    | nil => simp at h
    | cons y ys =>
      simp only [cmpList]
      by_cases h1 : x < y
      · simp only [if_pos h1]
        constructor
        · intro hc
          cases hc
        · intro heq
          cases heq
          exact absurd h1 (lt_irrefl _)
      · by_cases h2 : y < x
        · simp only [if_neg h1, if_pos h2]
          constructor
          · intro hc
            cases hc
          · intro heq
            cases heq
            exact absurd h2 (lt_irrefl _)
        · have hxyeq : x = y := Nat.le_antisymm (Nat.le_of_not_lt h2) (Nat.le_of_not_lt h1)
          subst hxyeq
          simp only [if_neg h1, if_neg h2]
          rw [ih (by simpa using h)]
          simp

theorem getD_replicate_zero (k j : Nat) : (List.replicate k (0 : Nat)).getD j 0 = 0 := by
  induction k generalizing j with
  | zero => simp [List.getD]
  | succ n ih =>
    cases j with
    | zero => simp [List.replicate]
    | succ j' => simp [List.replicate, ih j']

theorem segAt_padTo (l : List Nat) (n i : Nat) : segAt (padTo l n) i = segAt l i := by
  unfold segAt padTo
  rcases Nat.lt_or_ge i l.length with h | h
  · exact List.getD_append _ _ _ _ h
  · rw [List.getD_append_right _ _ _ _ h, List.getD_eq_default _ _ h]
    exact getD_replicate_zero _ _

theorem cmpSegs_eq_segAt {a b : List Nat} (h : cmpSegs a b = .eq) (i : Nat) :
    segAt a i = segAt b i := by
  have ha : a.length ≤ max a.length b.length := le_max_left _ _
  have hb : b.length ≤ max a.length b.length := le_max_right _ _
  have hpad : padTo a (max a.length b.length) = padTo b (max a.length b.length) := by
    have hcl := cmpSegs_padded ha hb
    rw [h] at hcl
    exact (cmpList_eq_iff (by rw [padTo_length_of_le ha, padTo_length_of_le hb])).mp hcl
  rw [← segAt_padTo a (max a.length b.length) i, ← segAt_padTo b (max a.length b.length) i, hpad]

theorem cmpSegs_eq_of_not_gt {a b : List Nat} (h1 : cmpSegs a b ≠ .gt) (h2 : cmpSegs b a ≠ .gt) :
    cmpSegs a b = .eq := by
  cases h : cmpSegs a b with
  | lt =>
    have hba : cmpSegs b a = .gt := by
      rw [cmpSegs_swap, h]
      rfl
    exact absurd hba h2
  | eq => rfl
  | gt => exact absurd h h1

/-! ### The running maximum computed by getLatestIOSVersion -/

/-- The parsed versions of the `iOS`-keyed entries of the map, in entry
order. -/
def iosParses (m : OsVersionSimulatorInfosMap) : List GoVersion :=
  m.filterMap (fun p => if iosKey p.1 then iosVersionOf p.1 else none)

theorem iosParses_cons_ios {p : String × List InfoModel} {rest : OsVersionSimulatorInfosMap}
    (hk : iosKey p.1 = true) {v : GoVersion} (hv : iosVersionOf p.1 = some v) :
    iosParses (p :: rest) = v :: iosParses rest := by
  simp [iosParses, List.filterMap_cons, hk, hv]

theorem iosParses_cons_not_ios {p : String × List InfoModel} {rest : OsVersionSimulatorInfosMap}
    (hk : iosKey p.1 = false) : iosParses (p :: rest) = iosParses rest := by
  simp [iosParses, List.filterMap_cons, hk]

theorem newVersion_segments_length {cs : List Char} {v : GoVersion}
    (h : newVersion cs = some v) : 2 ≤ v.segments.length := by
  unfold newVersion at h
  cases hm : metaCapture ((stripV cs).dropWhile (fun c => !(c == '+'))) with
  | none =>
    rw [hm] at h
    cases h
  | some md =>
    rw [hm] at h
    cases hp : preCapture (((stripV cs).takeWhile (fun c => !(c == '+'))).dropWhile isCoreChar) with
    | none =>
      rw [hp] at h
      cases h
    | some pr =>
      rw [hp] at h
      dsimp only at h
      by_cases h1 : (coreParts cs).all (fun p => !p.isEmpty && p.all Char.isDigit)
      · rw [if_pos h1] at h
        by_cases h2 : (coreParts cs).all (fun p => digitsToNat p ≤ maxInt64)
        · rw [if_pos h2] at h
          injection h with h
          subst h
          rw [padTo_length]
          exact le_trans (by omega) (le_max_right _ _)
        · rw [if_neg h2] at h
          cases h
      · rw [if_neg h1] at h
        cases h

theorem iosParses_length {m : OsVersionSimulatorInfosMap} {v : GoVersion}
    (h : v ∈ iosParses m) : 2 ≤ v.segments.length := by
  unfold iosParses at h
  rw [List.mem_filterMap] at h
  obtain ⟨p, _, hp⟩ := h
  by_cases hk : iosKey p.1
  · rw [if_pos hk] at hp
    unfold iosVersionOf at hp
    exact newVersion_segments_length hp
  · rw [if_neg hk] at hp
    cases hp

theorem iosParses_mem {m : OsVersionSimulatorInfosMap} {p : String × List InfoModel}
    (hp : p ∈ m) (hk : iosKey p.1 = true) {v : GoVersion} (hv : iosVersionOf p.1 = some v) :
    v ∈ iosParses m := by
  unfold iosParses
  rw [List.mem_filterMap]
  exact ⟨p, hp, by rw [if_pos hk, hv]⟩

theorem iosParses_nil {m : OsVersionSimulatorInfosMap} (h : ∀ p ∈ m, iosKey p.1 = false) :
    iosParses m = [] := by
  unfold iosParses
  rw [List.filterMap_eq_nil_iff]
  intro p hp
  rw [h p hp]
  simp

theorem maxStep_isSome (acc : Option (List Nat)) (v : List Nat) :
    ∃ w, maxStep acc v = some w := by
  cases acc with
  | none => exact ⟨v, rfl⟩
  | some m =>
    simp only [maxStep]
    by_cases h : cmpSegs v m = .gt
    · exact ⟨v, by simp [h]⟩
    · exact ⟨m, by simp [h]⟩

theorem maxStep_bound_new {acc : Option (List Nat)} {v w : List Nat}
    (h : maxStep acc v = some w) : cmpSegs v w ≠ .gt := by
  cases acc with
  | none =>
    cases h
    simp [cmpSegs_self]
  | some m =>
    simp only [maxStep] at h
    by_cases hg : cmpSegs v m = .gt
    · rw [if_pos hg] at h
      cases h
      simp [cmpSegs_self]
    · rw [if_neg hg] at h
      cases h
      exact hg

theorem maxStep_bound_acc {acc : Option (List Nat)} {a v w : List Nat} (hacc : acc = some a)
    (h : maxStep acc v = some w) : cmpSegs a w ≠ .gt := by
  subst hacc
  simp only [maxStep] at h
  by_cases hg : cmpSegs v a = .gt
  · rw [if_pos hg] at h
    cases h
    rw [cmpSegs_swap v a, hg]
    simp [Ordering.swap]
  · rw [if_neg hg] at h
    cases h
    simp [cmpSegs_self]

theorem maxStep_mem {acc : Option (List Nat)} {v w : List Nat} (h : maxStep acc v = some w) :
    w = v ∨ acc = some w := by
  cases acc with
  | none =>
    cases h
    exact .inl rfl
  | some m =>
    simp only [maxStep] at h
    by_cases hg : cmpSegs v m = .gt
    · rw [if_pos hg] at h
      cases h
      exact .inl rfl
    · rw [if_neg hg] at h
      cases h
      exact .inr rfl

theorem foldl_maxStep_none {l : List (List Nat)} {acc : Option (List Nat)}
    (h : l.foldl maxStep acc = none) : acc = none ∧ l = [] := by
  induction l generalizing acc with
  | nil => exact ⟨h, rfl⟩
  | cons v vs ih =>
    rw [List.foldl_cons] at h
    obtain ⟨hacc, _⟩ := ih h
    obtain ⟨w, hw⟩ := maxStep_isSome acc v
    rw [hw] at hacc
    cases hacc

theorem foldl_maxStep_spec : ∀ (l : List (List Nat)) (acc : Option (List Nat)) (m : List Nat),
    l.foldl maxStep acc = some m →
    (acc = some m ∨ m ∈ l) ∧ (∀ v ∈ l, cmpSegs v m ≠ .gt) ∧
    (∀ a, acc = some a → cmpSegs a m ≠ .gt) := by
  intro l
  induction l with
  | nil =>
    intro acc m h
    simp only [List.foldl_nil] at h
    refine ⟨.inl h, by simp, ?_⟩
    intro a ha
    rw [ha] at h
    cases h
    simp [cmpSegs_self]
  | cons v vs ih =>
    intro acc m h
    rw [List.foldl_cons] at h
    obtain ⟨w, hw⟩ := maxStep_isSome acc v
    rw [hw] at h
    obtain ⟨hmem, hbound, haccb⟩ := ih _ _ h
    have hvw : cmpSegs v w ≠ .gt := maxStep_bound_new hw
    have hwm : cmpSegs w m ≠ .gt := haccb w rfl
    refine ⟨?_, ?_, ?_⟩
    · rcases hmem with hm | hm
      · have hwm' : w = m := Option.some.inj hm
        rcases maxStep_mem hw with h1 | h1
        · exact .inr (by rw [← hwm', h1]; exact List.mem_cons_self _ _)
        · exact .inl (by rw [h1, hwm'])
      · exact .inr (List.mem_cons_of_mem _ hm)
    · intro u hu
      rcases List.mem_cons.mp hu with rfl | hu'
      · exact cmpSegs_le_trans hvw hwm
      · exact hbound u hu'
    · intro a ha
      exact cmpSegs_le_trans (maxStep_bound_acc ha hw) hwm

theorem maxStepV_segments (acc : Option GoVersion) (v : GoVersion) :
    Option.map GoVersion.segments (maxStepV acc v) =
      maxStep (Option.map GoVersion.segments acc) v.segments := by
  cases acc with
  | none => rfl
  | some m =>
    simp only [maxStepV, maxStep, Option.map_some']
    by_cases hseg : v.segments = m.segments
    · have hc : cmpSegs v.segments m.segments = .eq := by
        rw [hseg]
        exact cmpSegs_self _
      rw [hc]
      by_cases hcmp : GoVersion.compare v m = .gt <;> simp [hcmp, hseg]
    · have hcv : GoVersion.compare v m = cmpSegs v.segments m.segments := by
        unfold GoVersion.compare
        rw [if_neg hseg]
      rw [hcv]
      by_cases hcmp : cmpSegs v.segments m.segments = .gt <;> simp [hcmp]

theorem foldl_maxStepV_segments (l : List GoVersion) :
    ∀ acc : Option GoVersion,
      Option.map GoVersion.segments (l.foldl maxStepV acc) =
        (l.map GoVersion.segments).foldl maxStep (Option.map GoVersion.segments acc) := by
  induction l with
  | nil =>
    intro acc
    rfl
  | cons v vs ih =>
    intro acc
    rw [List.foldl_cons, List.map_cons, List.foldl_cons, ih, maxStepV_segments]

theorem foldl_maxStepV_eq_none {l : List GoVersion}
    (h : l.foldl maxStepV none = none) : l = [] := by
  have hproj := foldl_maxStepV_segments l none
  rw [h] at hproj
  obtain ⟨-, hnil⟩ := foldl_maxStep_none (hproj.symm : _ = (none : Option (List Nat)))
  cases hl : l with
  | nil => rfl
  | cons a t =>
    rw [hl] at hnil
    simp at hnil

theorem foldl_maxStepV_segments_spec {l : List GoVersion} {V : GoVersion}
    (h : l.foldl maxStepV none = some V) :
    V.segments ∈ l.map GoVersion.segments ∧
      ∀ u ∈ l.map GoVersion.segments, cmpSegs u V.segments ≠ .gt := by
  have hproj := foldl_maxStepV_segments l none
  rw [h] at hproj
  have hproj2 : (l.map GoVersion.segments).foldl maxStep none = some V.segments := hproj.symm
  obtain ⟨hmem, hbound, -⟩ := foldl_maxStep_spec _ _ _ hproj2
  refine ⟨?_, hbound⟩
  rcases hmem with hm | hm
  · cases hm
  · exact hm

theorem getLatestIOSVersionAux_ok :
    ∀ (m : OsVersionSimulatorInfosMap) (acc : Option GoVersion),
    (∀ p ∈ m, iosKey p.1 = true → iosVersionOf p.1 ≠ none) →
    getLatestIOSVersionAux m acc = .ok ((iosParses m).foldl maxStepV acc) := by
  intro m
  induction m with
  | nil =>
    intro acc _
    rfl
  | cons p rest ih =>
    intro acc h
    obtain ⟨k, infos⟩ := p
    by_cases hk : iosKey k
    · have hv := h (k, infos) (List.mem_cons_self _ _) hk
      cases hveq : iosVersionOf k with
      | none => exact absurd hveq hv
      | some v =>
        rw [iosParses_cons_ios hk hveq, List.foldl_cons]
        simp only [getLatestIOSVersionAux, hk, if_true, hveq]
        exact ih _ (fun q hq hq2 => h q (List.mem_cons_of_mem _ hq) hq2)
    · rw [iosParses_cons_not_ios (by simpa using hk)]
      simp only [getLatestIOSVersionAux, hk, if_false, Bool.false_eq_true]
      exact ih _ (fun q hq hq2 => h q (List.mem_cons_of_mem _ hq) hq2)

theorem getLatestIOSVersionAux_error :
    ∀ (m : OsVersionSimulatorInfosMap) (acc : Option GoVersion),
    (∃ p ∈ m, iosKey p.1 = true ∧ iosVersionOf p.1 = none) →
    ∃ e, getLatestIOSVersionAux m acc = .error e := by
  intro m
  induction m with
  | nil =>
    intro acc h
    simp at h
  | cons p rest ih =>
    intro acc h
    obtain ⟨k, infos⟩ := p
    by_cases hk : iosKey k
    · cases hveq : iosVersionOf k with
      | none =>
        refine ⟨"Failed to parse version (" ++ (⟨trimChars (k.data.drop 3)⟩ : String) ++ ")", ?_⟩
        simp only [getLatestIOSVersionAux, hk, if_true, hveq]
      | some v =>
        have h' : ∃ q ∈ rest, iosKey q.1 = true ∧ iosVersionOf q.1 = none := by
          obtain ⟨q, hq, hq1, hq2⟩ := h
          rcases List.mem_cons.mp hq with rfl | hq'
          · have hq2' : iosVersionOf k = none := hq2
            rw [hveq] at hq2'
            cases hq2'
          · exact ⟨q, hq', hq1, hq2⟩
        obtain ⟨e, he⟩ := ih (maxStepV acc v) h'
        exact ⟨e, by simp [getLatestIOSVersionAux, hk, hveq, he]⟩
    · have h' : ∃ q ∈ rest, iosKey q.1 = true ∧ iosVersionOf q.1 = none := by
        obtain ⟨q, hq, hq1, hq2⟩ := h
        rcases List.mem_cons.mp hq with rfl | hq'
        · exact absurd hq1 (by simpa using hk)
        · exact ⟨q, hq', hq1, hq2⟩
      obtain ⟨e, he⟩ := ih acc h'
      exact ⟨e, by simp [getLatestIOSVersionAux, hk, he]⟩

/-! ### Structure of the scanning loop -/

theorem relevantLines_true (ls : List (List Char)) :
    relevantLines ls true = ls.takeWhile (fun l => !isBlankLine l) := by
  induction ls with
  | nil => rfl
  | cons l ls ih =>
    by_cases hb : isBlankLine l
    · simp [relevantLines, hb, List.takeWhile_cons]
    · simp [relevantLines, hb, List.takeWhile_cons, ih]

theorem relevantLines_false (ls : List (List Char)) :
    relevantLines ls false =
      (ls.takeWhile (fun l => !isBlankLine l)).dropWhile (fun l => !containsSpecs l) := by
  induction ls with
  | nil => rfl
  | cons l ls ih =>
    by_cases hb : isBlankLine l
    · simp [relevantLines, hb, List.takeWhile_cons]
    · by_cases hc : containsSpecs l
      · simp [relevantLines, hb, hc, List.takeWhile_cons, List.dropWhile_cons,
          relevantLines_true]
      · simp [relevantLines, hb, hc, List.takeWhile_cons, List.dropWhile_cons, ih]

theorem takeWhile_stops {α : Type} (p : α → Bool) (pre : List α) (b : α) (post : List α)
    (hb : p b = false) : (pre ++ b :: post).takeWhile p = pre.takeWhile p := by
  induction pre with
  | nil => simp [List.takeWhile_cons, hb]
  | cons a l ih =>
    by_cases ha : p a
    · simp [List.takeWhile_cons, ha, ih]
    · simp [List.takeWhile_cons, ha]

/-! ### Claims about the pure text transforms -/

/-- C3: when the requested OS version is "latest", for every simulator map
whose keys carrying the `iOS` marker all parse under the go-version grammar,
`getLatestIOSVersion` returns the string `iOS M.m` built from the first two
segments of a version of the map whose segments are maximal under the
semantic-version segment comparison, and every version of the map that is
maximal under the full semantic-version comparison (prerelease ordering
included) has exactly those two leading segments; it returns an error when
no `iOS`-marked key exists or when some `iOS`-marked key fails to parse. -/
theorem claim_C3 (m : OsVersionSimulatorInfosMap) :
    ((∀ p ∈ m, iosKey p.1 = true → iosVersionOf p.1 ≠ none) →
      (((∃ p ∈ m, iosKey p.1 = true) →
          ∃ v ∈ iosParses m,
            (∀ u ∈ iosParses m, cmpSegs u.segments v.segments ≠ .gt) ∧
            (∀ w ∈ iosParses m, (∀ u ∈ iosParses m, GoVersion.compare u w ≠ .gt) →
              segAt w.segments 0 = segAt v.segments 0 ∧
              segAt w.segments 1 = segAt v.segments 1) ∧
            getLatestIOSVersion m =
              .ok ("iOS " ++ Nat.repr (segAt v.segments 0) ++ "." ++ Nat.repr (segAt v.segments 1))) ∧
        ((∀ p ∈ m, iosKey p.1 = false) → ∃ e, getLatestIOSVersion m = .error e))) ∧
    ((∃ p ∈ m, iosKey p.1 = true ∧ iosVersionOf p.1 = none) →
      ∃ e, getLatestIOSVersion m = .error e) := by
  constructor
  · intro hall
    have haux := getLatestIOSVersionAux_ok m none hall
    constructor
    · intro ⟨p, hp, hk⟩
      have hv := hall p hp hk
      cases hveq : iosVersionOf p.1 with
      | none => exact absurd hveq hv
      | some v0 =>
        have hv0 : v0 ∈ iosParses m := iosParses_mem hp hk hveq
        cases hfold : (iosParses m).foldl maxStepV none with
        | none =>
          exfalso
          rw [foldl_maxStepV_eq_none hfold] at hv0
          cases hv0
        | some V =>
          obtain ⟨hVmem, hbound⟩ := foldl_maxStepV_segments_spec hfold
          obtain ⟨v, hvmem, hvseg⟩ := List.mem_map.mp hVmem
          have hbound2 : ∀ u ∈ iosParses m, cmpSegs u.segments v.segments ≠ .gt := by
            intro u hu
            rw [hvseg]
            exact hbound u.segments (List.mem_map_of_mem _ hu)
          have hlen : ¬ V.segments.length < 2 := by
            have h1 := iosParses_length hvmem
            rw [hvseg] at h1
            omega
          refine ⟨v, hvmem, hbound2, ?_, ?_⟩
          · intro w hw hwmax
            have hwseg : ∀ u ∈ iosParses m, cmpSegs u.segments w.segments ≠ .gt := by
              intro u hu
              by_cases hse : u.segments = w.segments
              · rw [hse, cmpSegs_self]
                simp
              · have hc := hwmax u hu
                unfold GoVersion.compare at hc
                rw [if_neg hse] at hc
                exact hc
            have h1 : cmpSegs w.segments v.segments ≠ .gt := hbound2 w hw
            have h2 : cmpSegs v.segments w.segments ≠ .gt := hwseg v hvmem
            have heq : cmpSegs w.segments v.segments = .eq := cmpSegs_eq_of_not_gt h1 h2
            exact ⟨cmpSegs_eq_segAt heq 0, cmpSegs_eq_segAt heq 1⟩
          · rw [hvseg]
            simp [getLatestIOSVersion, haux, hfold, hlen, renderIOS]
    · intro hnone
      have hnil : iosParses m = [] := iosParses_nil hnone
      refine ⟨"Failed to determin latest iOS simulator version", ?_⟩
      rw [getLatestIOSVersion, haux, hnil]
      rfl
  · intro hbad
    obtain ⟨e, he⟩ := getLatestIOSVersionAux_error m none hbad
    exact ⟨e, by rw [getLatestIOSVersion, he]⟩

/-- Concrete run of C3: the map with keys `iOS 8.4`, `tvOS 9.0`, `iOS 10.1`
has all its `iOS` keys parseable and the result is `iOS 10.1`. -/
def c3map : OsVersionSimulatorInfosMap := [("iOS 8.4", []), ("tvOS 9.0", []), ("iOS 10.1", [])]

theorem claim_C3_witness :
    (∀ p ∈ c3map, iosKey p.1 = true → iosVersionOf p.1 ≠ none) ∧
    (∃ p ∈ c3map, iosKey p.1 = true) ∧
    (∃ v ∈ iosParses c3map,
      (∀ u ∈ iosParses c3map, cmpSegs u.segments v.segments ≠ .gt) ∧
      (∀ w ∈ iosParses c3map, (∀ u ∈ iosParses c3map, GoVersion.compare u w ≠ .gt) →
        segAt w.segments 0 = segAt v.segments 0 ∧
        segAt w.segments 1 = segAt v.segments 1) ∧
      getLatestIOSVersion c3map =
        .ok ("iOS " ++ Nat.repr (segAt v.segments 0) ++ "." ++ Nat.repr (segAt v.segments 1))) :=
  ⟨by decide, by decide, ((claim_C3 c3map).1 (by decide)).1 (by decide)⟩

/-- The two results agree: both successes with the same value, or both
errors. -/
def sameOutcome (r₁ r₂ : Except String String) : Prop :=
  (∃ s, r₁ = .ok s ∧ r₂ = .ok s) ∨ ((∃ e₁, r₁ = .error e₁) ∧ (∃ e₂, r₂ = .error e₂))

/-- C8: the two text transforms are deterministic: `getLatestIOSVersion`
yields the same version string, or an error in both runs, on any two
iteration orders (permutations) of the same simulator map, and
`calabashCucumberFromGemfileLockContent` returns the same string on every
evaluation of the same content. -/
theorem claim_C8 (m₁ m₂ : OsVersionSimulatorInfosMap) (hperm : List.Perm m₁ m₂) :
    sameOutcome (getLatestIOSVersion m₁) (getLatestIOSVersion m₂) ∧
    (∀ c, calabashCucumberFromGemfileLockContent c = calabashCucumberFromGemfileLockContent c) := by
  refine ⟨?_, fun _ => rfl⟩
  by_cases hbad : ∃ p ∈ m₁, iosKey p.1 = true ∧ iosVersionOf p.1 = none
  · obtain ⟨e₁, he₁⟩ := getLatestIOSVersionAux_error m₁ none hbad
    have hbad₂ : ∃ p ∈ m₂, iosKey p.1 = true ∧ iosVersionOf p.1 = none := by
      obtain ⟨p, hp, h1, h2⟩ := hbad
      exact ⟨p, hperm.mem_iff.mp hp, h1, h2⟩
    obtain ⟨e₂, he₂⟩ := getLatestIOSVersionAux_error m₂ none hbad₂
    exact .inr ⟨⟨e₁, by rw [getLatestIOSVersion, he₁]⟩, ⟨e₂, by rw [getLatestIOSVersion, he₂]⟩⟩
  · have hall₁ : ∀ p ∈ m₁, iosKey p.1 = true → iosVersionOf p.1 ≠ none := by
      intro p hp hk hv
      exact hbad ⟨p, hp, hk, hv⟩
    have hall₂ : ∀ p ∈ m₂, iosKey p.1 = true → iosVersionOf p.1 ≠ none := by
      intro p hp hk hv
      exact hbad ⟨p, hperm.mem_iff.mpr hp, hk, hv⟩
    have haux₁ := getLatestIOSVersionAux_ok m₁ none hall₁
    have haux₂ := getLatestIOSVersionAux_ok m₂ none hall₂
    have hpp : List.Perm (iosParses m₁) (iosParses m₂) := hperm.filterMap _
    have hppm : List.Perm ((iosParses m₁).map GoVersion.segments)
        ((iosParses m₂).map GoVersion.segments) := hpp.map _
    cases hfold₁ : (iosParses m₁).foldl maxStepV none with
    | none =>
      have hnil₁ : iosParses m₁ = [] := foldl_maxStepV_eq_none hfold₁
      have hnil₂ : iosParses m₂ = [] := by
        have hp2 := hpp
        rw [hnil₁] at hp2
        exact hp2.symm.eq_nil
      refine .inr ⟨⟨"Failed to determin latest iOS simulator version", ?_⟩,
        ⟨"Failed to determin latest iOS simulator version", ?_⟩⟩
      · rw [getLatestIOSVersion, haux₁, hnil₁]
        rfl
      · rw [getLatestIOSVersion, haux₂, hnil₂]
        rfl
    | some v₁ =>
      cases hfold₂ : (iosParses m₂).foldl maxStepV none with
      | none =>
        exfalso
        have hnil₂ : iosParses m₂ = [] := foldl_maxStepV_eq_none hfold₂
        have hnil₁ : iosParses m₁ = [] := by
          have hp2 := hpp
          rw [hnil₂] at hp2
          exact hp2.eq_nil
        rw [hnil₁] at hfold₁
        cases hfold₁
      | some v₂ =>
        obtain ⟨hmem₁, hb₁⟩ := foldl_maxStepV_segments_spec hfold₁
        obtain ⟨hmem₂, hb₂⟩ := foldl_maxStepV_segments_spec hfold₂
        have h12 : cmpSegs v₂.segments v₁.segments ≠ .gt :=
          hb₁ v₂.segments (hppm.mem_iff.mpr hmem₂)
        have h21 : cmpSegs v₁.segments v₂.segments ≠ .gt :=
          hb₂ v₁.segments (hppm.mem_iff.mp hmem₁)
        have heq : cmpSegs v₁.segments v₂.segments = .eq := cmpSegs_eq_of_not_gt h21 h12
        have hrender : renderIOS v₁.segments = renderIOS v₂.segments := by
          unfold renderIOS
          rw [cmpSegs_eq_segAt heq 0, cmpSegs_eq_segAt heq 1]
        obtain ⟨u₁, hu₁, hus₁⟩ := List.mem_map.mp hmem₁
        obtain ⟨u₂, hu₂, hus₂⟩ := List.mem_map.mp hmem₂
        have hlen₁ : ¬ v₁.segments.length < 2 := by
          have h1 := iosParses_length hu₁
          rw [hus₁] at h1
          omega
        have hlen₂ : ¬ v₂.segments.length < 2 := by
          have h1 := iosParses_length hu₂
          rw [hus₂] at h1
          omega
        refine .inl ⟨renderIOS v₁.segments, ?_, ?_⟩
        · simp [getLatestIOSVersion, haux₁, hfold₁, hlen₁]
        · simp [getLatestIOSVersion, haux₂, hfold₂, hlen₂, hrender]

/-- Concrete maps for the C8 witness: the same two entries in both orders. -/
def c8map₁ : OsVersionSimulatorInfosMap := [("iOS 9.3", []), ("iOS 10.2", [])]

/-- Second iteration order of the same simulator map. -/
def c8map₂ : OsVersionSimulatorInfosMap := [("iOS 10.2", []), ("iOS 9.3", [])]

theorem claim_C8_witness :
    List.Perm c8map₁ c8map₂ ∧
    sameOutcome (getLatestIOSVersion c8map₁) (getLatestIOSVersion c8map₂) ∧
    (∀ c, calabashCucumberFromGemfileLockContent c = calabashCucumberFromGemfileLockContent c) :=
  ⟨by decide, claim_C8 c8map₁ c8map₂ (by decide)⟩

/-- C4 fails as stated: on a content whose first line is blank, the scan stops
before ever reaching the `specs:` line, so the function returns the empty
string although the block that starts at the `specs:` line contains a
matching `calabash-cucumber (version)` line. -/
theorem claim_C4_counterexample :
    calabashCucumberFromGemfileLockContent "\nspecs:\n  calabash-cucumber (1.2.3)" = "" ∧
    extractFromSpecsBlock "\nspecs:\n  calabash-cucumber (1.2.3)" = "1.2.3" := ⟨rfl, rfl⟩

/-- C4 (amended): for every lockfile content string,
`calabashCucumberFromGemfileLockContent` returns the substring captured by
the fixed pattern `calabash-cucumber \((.+)\)` from the first matching line
of the block consisting of the lines from the first line containing `specs:`
up to the first blank line of the entire content, and returns the empty
string when no such line is found in that block (in particular the block is
empty when a blank line precedes the `specs:` line). -/
theorem claim_C4_amended (content : String) :
    calabashCucumberFromGemfileLockContent content = extractFromTruncatedBlock content := by
  unfold calabashCucumberFromGemfileLockContent extractFromTruncatedBlock
  rw [relevantLines_false]

/-- C9: the scan stops at the first all-spaces line of the whole content even
when that line precedes the `specs:` marker, so whenever some blank line
comes before every line containing `specs:`, the function returns the empty
string. -/
theorem claim_C9 (content : String) (pre post : List (List Char)) (b : List Char)
    (hsplit : splitOnChar '\n' content.data = pre ++ b :: post)
    (hblank : isBlankLine b = true)
    (hnospecs : ∀ x ∈ pre, containsSpecs x = false) :
    calabashCucumberFromGemfileLockContent content = "" := by
  unfold calabashCucumberFromGemfileLockContent
  rw [hsplit, relevantLines_false]
  rw [takeWhile_stops (fun l => !isBlankLine l) pre b post (by simp [hblank])]
  have hdrop : (pre.takeWhile (fun l => !isBlankLine l)).dropWhile
      (fun l => !containsSpecs l) = [] := by
    rw [List.dropWhile_eq_nil_iff]
    intro x hx
    have hxpre : x ∈ pre := (List.takeWhile_prefix _).subset hx
    simp [hnospecs x hxpre]
  rw [hdrop]
  rfl

theorem claim_C9_witness :
    splitOnChar '\n' ("\nspecs:\n  calabash-cucumber (9.9.9)").data =
      ([] : List (List Char)) ++ ([] : List Char) :: ["specs:".data, "  calabash-cucumber (9.9.9)".data] ∧
    isBlankLine ([] : List Char) = true ∧
    (∀ x ∈ ([] : List (List Char)), containsSpecs x = false) ∧
    calabashCucumberFromGemfileLockContent "\nspecs:\n  calabash-cucumber (9.9.9)" = "" :=
  ⟨by decide, rfl, by simp,
    claim_C9 "\nspecs:\n  calabash-cucumber (9.9.9)" [] ["specs:".data, "  calabash-cucumber (9.9.9)".data] []
      (by decide) rfl (by simp)⟩

/-! ### Trace semantics of the main programs -/

/-- Observable effects of one run of the step binary: error logs, `envman`
exports, `os.Setenv`, the external commands, and the process exit code. -/
inductive Event where
  | logError (msg : String)
  | exportEnv (key value : String)
  | setEnv (key value : String)
  | runSimQuery
  | copyDir (src dst : String) (contentOnly : Bool)
  | checkGemInstalled (gem ver : String)
  | gemInstallReq (gem ver : String)
  | runGemInstall (idx : Nat) (args : List String)
  | runBundleInstall (envs : List String)
  | runCucumber (args envs : List String)
  | exit (code : Nat)
deriving Repr, DecidableEq

/-- Effects of `registerFail` (src/main.go lines 122-130, src/unnamed/part_001
lines 96-104): log the error, export the failure value for
`BITRISE_XAMARIN_TEST_RESULT` via envman, and exit with code 1. -/
def registerFail (msg : String) : List Event :=
  [.logError msg, .exportEnv "BITRISE_XAMARIN_TEST_RESULT" "failed", .exit 1]

/-- Model of Go `filepath.Base` for the slash-separated paths the step sees. -/
def filepathBase (p : String) : String :=
  ⟨((splitOnChar '/' p.data).filter (fun s => !s.isEmpty)).getLastD ['/']⟩

/-- Model of Go `filepath.Dir`: everything before the final separator. -/
def filepathDir (p : String) : String :=
  match (splitOnChar '/' p.data).dropLast with
  | [] => "."
  | ps => ⟨List.intercalate ['/'] ps⟩

/-- Model of Go `filepath.Join` on two components. -/
def filepathJoin (a b : String) : String := a ++ "/" ++ b

/-- The loop running the commands returned by `rubycommand.GemInstall`: each
command is executed in order and the first failure terminates the run. `inl`
is a terminated (failed) run, `inr` a completed loop; the index argument
numbers the commands. -/
def runInstalls (failAt : Nat → Option String) :
    List (List String) → Nat → Sum (List Event) (List Event)
  | [], _ => .inr []
  | c :: rest, i =>
    match failAt i with
    | some e => .inl ([.runGemInstall i c] ++ registerFail ("command failed, error: " ++ e))
    | none =>
      match runInstalls failAt rest (i + 1) with
      | .inl evs => .inl (.runGemInstall i c :: evs)
      | .inr evs => .inr (.runGemInstall i c :: evs)

namespace Part001

/-- ConfigsModel of src/unnamed/part_001 (lines 22-32). -/
structure ConfigsModel where
  workDir : String
  gemFilePath : String
  appPath : String
  options : String
  simulatorDevice : String
  simulatorOsVersion : String
  calabashCucumberVersion : String
deriving Repr, DecidableEq

/-- Outcomes of every external operation the part_001 main performs.  An
`Except String` field is the (value, error) result of the Go call, an
`Option String` field is the error of a call returning only an error
(`none` meaning success). -/
structure World where
  cfg : ConfigsModel
  workDirIsDir : Except String Bool
  appPathIsDir : Except String Bool
  shellSplit : Except String (List String)
  simLatest : Except String (InfoModel × String)
  simExact : Except String InfoModel
  mono32IsDir : Except String Bool
  mono64IsDir : Except String Bool
  is64Bit : Except String Bool
  tmpDir : Except String String
  copyAppErr : Option String
  copyMonoErr : Option String
  absWorkDir : Except String String
  absGemFilePath : Except String String
  gemfileExists : Except String Bool
  gemfileLockExists : Except String Bool
  lockContent : Except String String
  gemInstalled : Except String Bool
  gemInstallCmds : Except String (List (List String))
  gemInstallErr : Nat → Option String
  bundleCmdErr : Option String
  bundleInstallErr : Option String
  cucumberCmdErr : Option String
  cucumberErr : Option String

/-- configs.validate() of part_001 (lines 61-88). -/
def validate (w : World) : Option String :=
  if w.cfg.workDir = "" then some "no WorkDir parameter specified"
  else
    match w.workDirIsDir with
    | .error e => some ("failed to check if WorkDir exist, error: " ++ e)
    | .ok false => some ("WorkDir directory not exists at: " ++ w.cfg.workDir)
    | .ok true =>
      match (if w.cfg.appPath = "" then Except.ok true else w.appPathIsDir) with
      | .error e => some ("failed to check if AppPath exist, error: " ++ e)
      | .ok false => some ("AppPath directory not exists at: " ++ w.cfg.appPath)
      | .ok true =>
        if w.cfg.simulatorDevice = "" then some "no SimulatorDevice parameter specified"
        else if w.cfg.simulatorOsVersion = "" then some "no SimulatorOsVersion parameter specified"
        else none

/-- The simulator resolution of part_001 main (lines 186-201): the `latest`
branch uses `GetLatestSimulatorInfoAndVersion` (descriptor and version), the
other branch `GetSimulatorInfo`; the World fields carry the library results. -/
def resolvedSim (w : World) : Except String InfoModel :=
  if w.cfg.simulatorOsVersion = "latest" then w.simLatest.map Prod.fst else w.simExact

/-- The app-compatibility stage (src/unnamed/part_001 lines 206-264): when the
app bundle carries both a `.monotouch-32` and a `.monotouch-64` directory the
app is copied into a fresh temporary directory, the payload matching the
simulator architecture is copied over the copy, and the new path replaces
the app path.  `inl` is the trace of a terminated (failed) run; `inr`
carries the emitted copy events and the resulting app path. -/
def monotouchStage (w : World) : Sum (List Event) (List Event × String) :=
  if w.cfg.appPath = "" then .inr ([], w.cfg.appPath)
  else
    match w.mono32IsDir with
    | .error e =>
      .inl (registerFail ("Failed to check if path (" ++
        filepathJoin w.cfg.appPath ".monotouch-32" ++ ") exist, error: " ++ e))
    | .ok m32 =>
      match w.mono64IsDir with
      | .error e =>
        .inl (registerFail ("Failed to check if path (" ++
          filepathJoin w.cfg.appPath ".monotouch-64" ++ ") exist, error: " ++ e))
      | .ok m64 =>
        if m32 && m64 then
          match w.is64Bit with
          | .error e => .inl (registerFail ("Failed to check simulator architecture, error: " ++ e))
          | .ok is64 =>
            match w.tmpDir with
            | .error e => .inl (registerFail ("Failed to create tmp dir, error: " ++ e))
            | .ok tmp =>
              match w.copyAppErr with
              | some e =>
                .inl ([.copyDir w.cfg.appPath tmp false] ++ registerFail ("Failed to copy .app to (" ++
                  filepathJoin tmp (filepathBase w.cfg.appPath) ++ "), error: " ++ e))
              | none =>
                match w.copyMonoErr with
                | some e =>
                  .inl ([.copyDir w.cfg.appPath tmp false,
                    .copyDir (filepathJoin (filepathJoin tmp (filepathBase w.cfg.appPath))
                      (if is64 then ".monotouch-64" else ".monotouch-32"))
                      (filepathJoin tmp (filepathBase w.cfg.appPath)) true] ++
                    registerFail ((if is64 then "Failed to copy .monotouch-64 files, error: "
                      else "Failed to copy .monotouch-32 files, error: ") ++ e))
                | none =>
                  .inr ([.copyDir w.cfg.appPath tmp false,
                    .copyDir (filepathJoin (filepathJoin tmp (filepathBase w.cfg.appPath))
                      (if is64 then ".monotouch-64" else ".monotouch-32"))
                      (filepathJoin tmp (filepathBase w.cfg.appPath)) true],
                    filepathJoin tmp (filepathBase w.cfg.appPath))
        else .inr ([], w.cfg.appPath)

/-- The Gemfile detection stage of part_001 (lines 287-315): decides whether
bundler is used; only the checks and the Gemfile.lock read can terminate the
run, the parsed lock version is merely logged. -/
def gemfileStage (w : World) (gemFilePath : String) : Sum (List Event) Bool :=
  if gemFilePath = "" then .inr false
  else
    match w.gemfileExists with
    | .error e =>
      .inl (registerFail ("Failed to check if Gemfile exists at (" ++ gemFilePath ++
        ") exist, error: " ++ e))
    | .ok false => .inr false
    | .ok true =>
      match w.gemfileLockExists with
      | .error e =>
        .inl (registerFail ("Failed to check if Gemfile.lock exists at (" ++
          filepathJoin (filepathDir gemFilePath) "Gemfile.lock" ++ "), error: " ++ e))
      | .ok false => .inr false
      | .ok true =>
        match w.lockContent with
        | .error e =>
          .inl (registerFail ("Failed to get calabash-cucumber version from Gemfile.lock, error: " ++ e))
        | .ok _ => .inr true

/-- The gem-installation stage of part_001 (lines 332-385): an explicit
version is checked and gem-installed, otherwise bundler runs
`bundle install`, otherwise the latest gem is installed. -/
def installStage (w : World) (gemFilePath : String) (useBundler : Bool) :
    Sum (List Event) (List Event) :=
  if w.cfg.calabashCucumberVersion ≠ "" then
    match w.gemInstalled with
    | .error e =>
      .inl ([.checkGemInstalled "calabash-cucumber" w.cfg.calabashCucumberVersion] ++
        registerFail ("Failed to check if calabash-cucumber (v" ++
          w.cfg.calabashCucumberVersion ++ ") installed, error: " ++ e))
    | .ok true => .inr [.checkGemInstalled "calabash-cucumber" w.cfg.calabashCucumberVersion]
    | .ok false =>
      match w.gemInstallCmds with
      | .error e =>
        .inl ([.checkGemInstalled "calabash-cucumber" w.cfg.calabashCucumberVersion,
          .gemInstallReq "calabash-cucumber" w.cfg.calabashCucumberVersion] ++
          registerFail ("Failed to create gem install commands, error: " ++ e))
      | .ok cmds =>
        match runInstalls w.gemInstallErr cmds 0 with
        | .inl evs =>
          .inl ([.checkGemInstalled "calabash-cucumber" w.cfg.calabashCucumberVersion,
            .gemInstallReq "calabash-cucumber" w.cfg.calabashCucumberVersion] ++ evs)
        | .inr evs =>
          .inr ([.checkGemInstalled "calabash-cucumber" w.cfg.calabashCucumberVersion,
            .gemInstallReq "calabash-cucumber" w.cfg.calabashCucumberVersion] ++ evs)
  else if useBundler then
    match w.bundleCmdErr with
    | some e => .inl (registerFail ("Failed to create command, error: " ++ e))
    | none =>
      match w.bundleInstallErr with
      | some e =>
        .inl ([.runBundleInstall ["BUNDLE_GEMFILE=" ++ gemFilePath]] ++
          registerFail ("bundle install failed, error: " ++ e))
      | none => .inr [.runBundleInstall ["BUNDLE_GEMFILE=" ++ gemFilePath]]
  else
    match w.gemInstallCmds with
    | .error e =>
      .inl ([.gemInstallReq "calabash-cucumber" ""] ++
        registerFail ("Failed to create gem install commands, error: " ++ e))
    | .ok cmds =>
      match runInstalls w.gemInstallErr cmds 0 with
      | .inl evs => .inl (.gemInstallReq "calabash-cucumber" "" :: evs)
      | .inr evs => .inr (.gemInstallReq "calabash-cucumber" "" :: evs)

/-- The cucumber argument vector of part_001 (lines 397-405). -/
def cucumberArgs (w : World) (useBundler : Bool) (options : List String) : List String :=
  (if w.cfg.calabashCucumberVersion ≠ "" then
    ["cucumber", "_" ++ w.cfg.calabashCucumberVersion ++ "_"]
   else if useBundler then ["bundle", "exec", "cucumber"]
   else ["cucumber"]) ++ options

/-- The environment injected into the cucumber process (lines 392-403). -/
def cucumberEnvs (w : World) (useBundler : Bool) (gemFilePath appPath : String)
    (info : InfoModel) : List String :=
  ["DEVICE_TARGET=" ++ info.id] ++
  (if appPath ≠ "" then ["APP=" ++ appPath] else []) ++
  (if w.cfg.calabashCucumberVersion = "" ∧ useBundler then
    ["BUNDLE_GEMFILE=" ++ gemFilePath] else [])

/-- Trace semantics of part_001 `main` (src/unnamed/part_001 lines 167-427). -/
def run (w : World) : List Event :=
  match validate w with
  | some e => registerFail ("Issue with input: " ++ e)
  | none =>
    match w.shellSplit with
    | .error e =>
      registerFail ("Failed to split additional options (" ++ w.cfg.options ++ "), error: " ++ e)
    | .ok options =>
      match resolvedSim w with
      | .error e => [.runSimQuery] ++ registerFail ("Failed to get simulator info, error: " ++ e)
      | .ok info =>
        [.runSimQuery] ++
        match monotouchStage w with
        | .inl evs => evs
        | .inr (evs₁, appPath) =>
          evs₁ ++
          match w.absWorkDir with
          | .error e =>
            registerFail ("Failed to expand WorkDir (" ++ w.cfg.workDir ++ "), error: " ++ e)
          | .ok _ =>
            match (if w.cfg.gemFilePath = "" then Except.ok "" else w.absGemFilePath) with
            | .error e =>
              registerFail ("Failed to expand GemFilePath (" ++ w.cfg.gemFilePath ++ "), error: " ++ e)
            | .ok gemFilePath =>
              match gemfileStage w gemFilePath with
              | .inl evs => evs
              | .inr useBundler =>
                match installStage w gemFilePath useBundler with
                | .inl evs₂ => evs₂
                | .inr evs₂ =>
                  evs₂ ++
                  match w.cucumberCmdErr with
                  | some e => registerFail ("Failed to create command, error: " ++ e)
                  | none =>
                    match w.cucumberErr with
                    | some e =>
                      [.runCucumber (cucumberArgs w useBundler options)
                        (cucumberEnvs w useBundler gemFilePath appPath info)] ++
                        registerFail ("cucumber failed, error: " ++ e)
                    | none =>
                      [.runCucumber (cucumberArgs w useBundler options)
                        (cucumberEnvs w useBundler gemFilePath appPath info),
                        .exportEnv "BITRISE_XAMARIN_TEST_RESULT" "succeeded", .exit 0]

end Part001

namespace MainGo

/-- ConfigsModel of src/main.go (lines 21-26). -/
structure ConfigsModel where
  simulatorDevice : String
  simulatorOsVersion : String
  calabashCucumberVersion : String
  gemFilePath : String
deriving Repr, DecidableEq

/-- Outcomes of every external operation the main.go main performs. -/
structure World where
  cfg : ConfigsModel
  simQuery : Except String OsVersionSimulatorInfosMap
  setenvErr : Option String
  rubyNewErr : Option String
  gemfileExists : Except String Bool
  gemfileLockExists : Except String Bool
  lockContent : Except String String
  gemInstalled : Except String Bool
  gemInstallCmds : Except String (List (List String))
  gemInstallErr : Nat → Option String
  bundleCmdErr : Option String
  bundleInstallErr : Option String
  cucumberCmdErr : Option String
  cucumberErr : Option String

/-- configs.validate() of main.go (lines 45-54). -/
def validate (c : ConfigsModel) : Option String :=
  if c.simulatorDevice = "" then some "No SimulatorDevice parameter specified!"
  else if c.simulatorOsVersion = "" then some "No SimulatorOsVersion parameter specified!"
  else none

/-- The Gemfile stage of main.go (lines 209-238): yields the version string
parsed from Gemfile.lock and the bundler flag; only the existence checks and
the Gemfile.lock read can terminate the run. -/
def gemfileStage (w : World) : Sum (List Event) (String × Bool) :=
  if w.cfg.gemFilePath = "" then .inr ("", false)
  else
    match w.gemfileExists with
    | .error e =>
      .inl (registerFail ("Failed to check if Gemfile exists at (" ++ w.cfg.gemFilePath ++
        ") exist, error: " ++ e))
    | .ok false => .inr ("", false)
    | .ok true =>
      match w.gemfileLockExists with
      | .error e =>
        .inl (registerFail ("Failed to check if Gemfile.lock exists at (" ++
          filepathJoin (filepathDir w.cfg.gemFilePath) "Gemfile.lock" ++ "), error: " ++ e))
      | .ok false => .inr ("", false)
      | .ok true =>
        match w.lockContent with
        | .error e =>
          .inl (registerFail ("Failed to get calabash-cucumber version from Gemfile.lock, error: " ++ e))
        | .ok content => .inr (calabashCucumberFromGemfileLockContent content, true)

/-- Lines 240-245 of main.go: a non-empty explicit version input overrides
the lock version and turns bundler off. -/
def resolveVersion (w : World) (lock : String × Bool) : String × Bool :=
  if w.cfg.calabashCucumberVersion ≠ "" then (w.cfg.calabashCucumberVersion, false) else lock

/-- The installation stage of main.go (lines 255-333): bundler runs
`bundle install`; otherwise a detected version is checked and gem-installed,
and with no version the latest gem is installed. -/
def installStage (w : World) (version : String) (useBundler : Bool) :
    Sum (List Event) (List Event) :=
  if useBundler then
    match w.bundleCmdErr with
    | some e => .inl (registerFail ("Failed to create command, error: " ++ e))
    | none =>
      match w.bundleInstallErr with
      | some e =>
        .inl ([.runBundleInstall ["BUNDLE_GEMFILE=" ++ w.cfg.gemFilePath]] ++
          registerFail ("bundle install failed, error: " ++ e))
      | none => .inr [.runBundleInstall ["BUNDLE_GEMFILE=" ++ w.cfg.gemFilePath]]
  else if version ≠ "" then
    match w.gemInstalled with
    | .error e =>
      .inl ([.checkGemInstalled "calabash-cucumber" version] ++
        registerFail ("Failed to check if calabash-cucumber (v" ++ version ++
          ") installed, error: " ++ e))
    | .ok true => .inr [.checkGemInstalled "calabash-cucumber" version]
    | .ok false =>
      match w.gemInstallCmds with
      | .error e =>
        .inl ([.checkGemInstalled "calabash-cucumber" version,
          .gemInstallReq "calabash-cucumber" version] ++
          registerFail ("Failed to create gem install commands, error: " ++ e))
      | .ok cmds =>
        match runInstalls w.gemInstallErr cmds 0 with
        | .inl evs =>
          .inl ([.checkGemInstalled "calabash-cucumber" version,
            .gemInstallReq "calabash-cucumber" version] ++ evs)
        | .inr evs =>
          .inr ([.checkGemInstalled "calabash-cucumber" version,
            .gemInstallReq "calabash-cucumber" version] ++ evs)
  else
    match w.gemInstallCmds with
    | .error e =>
      .inl ([.gemInstallReq "calabash-cucumber" ""] ++
        registerFail ("Failed to create gem install commands, error: " ++ e))
    | .ok cmds =>
      match runInstalls w.gemInstallErr cmds 0 with
      | .inl evs => .inl (.gemInstallReq "calabash-cucumber" "" :: evs)
      | .inr evs => .inr (.gemInstallReq "calabash-cucumber" "" :: evs)

/-- The cucumber argument vector of main.go (lines 255-281). -/
def cucumberArgs (useBundler : Bool) : List String :=
  (if useBundler then ["bundle", "exec"] else []) ++ ["cucumber"]

/-- The environment injected into the cucumber process (lines 346-351). -/
def cucumberEnvs (w : World) (useBundler : Bool) (info : InfoModel) : List String :=
  ["DEVICE_TARGET=" ++ info.id] ++
  (if useBundler then ["BUNDLE_GEMFILE=" ++ w.cfg.gemFilePath] else [])

/-- Trace semantics of main.go `main` (src/main.go lines 171-364).  Note the
success path of this variant runs cucumber and then simply returns: no
`BITRISE_XAMARIN_TEST_RESULT` export is performed on success. -/
def run (w : World) : List Event :=
  match validate w.cfg with
  | some e => registerFail ("Issue with input: " ++ e)
  | none =>
    [.runSimQuery] ++
    match w.simQuery with
    | .error e => registerFail ("Failed to get simulator infos, error: " ++ e)
    | .ok simMap =>
      match getSimulatorInfo simMap w.cfg.simulatorOsVersion w.cfg.simulatorDevice with
      | .error e => registerFail ("Failed to get simulator infos, error: " ++ e)
      | .ok info =>
        .setEnv "DEVICE_TARGET" info.id ::
        match w.setenvErr with
        | some e => registerFail ("Failed to set DEVICE_TARGET environment, error: " ++ e)
        | none =>
          match w.rubyNewErr with
          | some e => registerFail ("Failed to create ruby command, err: " ++ e)
          | none =>
            match gemfileStage w with
            | .inl evs => evs
            | .inr lock =>
              match installStage w (resolveVersion w lock).1 (resolveVersion w lock).2 with
              | .inl evs => evs
              | .inr evs =>
                evs ++
                match w.cucumberCmdErr with
                | some e => registerFail ("Failed to create command, error: " ++ e)
                | none =>
                  match w.cucumberErr with
                  | some e =>
                    [.runCucumber (cucumberArgs (resolveVersion w lock).2)
                      (cucumberEnvs w (resolveVersion w lock).2 info)] ++
                      registerFail ("cucumber failed, error: " ++ e)
                  | none =>
                    [.runCucumber (cucumberArgs (resolveVersion w lock).2)
                      (cucumberEnvs w (resolveVersion w lock).2 info),
                      .exit 0]

end MainGo

/-- A fully successful part_001 world: no Gemfile, no app bundle, an explicit
calabash-cucumber version that is already installed. -/
def okWorld1 : Part001.World :=
  { cfg := { workDir := "/w", gemFilePath := "", appPath := "", options := "",
             simulatorDevice := "iPhone 6", simulatorOsVersion := "iOS 8.4",
             calabashCucumberVersion := "0.20.5" }
    workDirIsDir := .ok true
    appPathIsDir := .ok true
    shellSplit := .ok []
    simLatest := .error "unused"
    simExact := .ok ⟨"iPhone 6", "UDID-1", "Shutdown"⟩
    mono32IsDir := .ok false
    mono64IsDir := .ok false
    is64Bit := .ok true
    tmpDir := .ok "/tmp/x"
    copyAppErr := none
    copyMonoErr := none
    absWorkDir := .ok "/w"
    absGemFilePath := .ok ""
    gemfileExists := .ok false
    gemfileLockExists := .ok false
    lockContent := .ok ""
    gemInstalled := .ok true
    gemInstallCmds := .ok []
    gemInstallErr := fun _ => none
    bundleCmdErr := none
    bundleInstallErr := none
    cucumberCmdErr := none
    cucumberErr := none }

example : Part001.run okWorld1 =
    [.runSimQuery, .checkGemInstalled "calabash-cucumber" "0.20.5",
     .runCucumber ["cucumber", "_0.20.5_"] ["DEVICE_TARGET=UDID-1"],
     .exportEnv "BITRISE_XAMARIN_TEST_RESULT" "succeeded", .exit 0] := by decide

example : Part001.run { okWorld1 with cucumberErr := some "tests failed" } =
    [.runSimQuery, .checkGemInstalled "calabash-cucumber" "0.20.5",
     .runCucumber ["cucumber", "_0.20.5_"] ["DEVICE_TARGET=UDID-1"],
     .logError "cucumber failed, error: tests failed",
     .exportEnv "BITRISE_XAMARIN_TEST_RESULT" "failed", .exit 1] := by decide

/-! ### Event classes and counting -/

/-- Events the step may emit while working, as opposed to the terminal
log/export/exit effects. -/
def workEv : Event → Bool
  | .logError _ => false
  | .exportEnv _ _ => false
  | .exit _ => false
  | _ => true

/-- The event is a `CopyDir` call. -/
def isCopyEv : Event → Bool
  | .copyDir _ _ _ => true
  | _ => false

/-- The event is an effect of the installation stage. -/
def isInstallEv : Event → Bool
  | .checkGemInstalled _ _ => true
  | .gemInstallReq _ _ => true
  | .runGemInstall _ _ => true
  | .runBundleInstall _ => true
  | _ => false

/-- The event is the cucumber invocation. -/
def isCucumberEv : Event → Bool
  | .runCucumber _ _ => true
  | _ => false

/-- The event is the `bundle install` invocation. -/
def isBundleEv : Event → Bool
  | .runBundleInstall _ => true
  | _ => false

/-- The event is the simulator query. -/
def isSimQueryEv : Event → Bool
  | .runSimQuery => true
  | _ => false

/-- The event runs the gem-install command with the given index. -/
def isGemInstallEv (i : Nat) : Event → Bool
  | .runGemInstall j _ => j == i
  | _ => false

/-- No cucumber invocation occurs in the trace. -/
def NoCuke (tr : List Event) : Prop := ∀ a e, Event.runCucumber a e ∉ tr

theorem noCuke_registerFail (m : String) : NoCuke (registerFail m) := by
  intro a e h
  simp [registerFail] at h

theorem noCuke_append {t₁ t₂ : List Event} (h₁ : NoCuke t₁) (h₂ : NoCuke t₂) :
    NoCuke (t₁ ++ t₂) := by
  intro a e h
  rcases List.mem_append.mp h with h | h
  · exact h₁ a e h
  · exact h₂ a e h

theorem noCuke_of_workless {tr : List Event} {q : Event → Bool}
    (hq : ∀ e, q e = true → isCucumberEv e = false)
    (h : ∀ e ∈ tr, q e = true) : NoCuke tr := by
  intro a e hmem
  have := hq _ (h _ hmem)
  simp [isCucumberEv] at this

theorem countP_zero_of {tr : List Event} {q r : Event → Bool}
    (hq : ∀ e, r e = true → q e = false)
    (h : ∀ e ∈ tr, r e = true) : tr.countP q = 0 := by
  rw [List.countP_eq_zero]
  intro e hmem
  simp [hq e (h e hmem)]

theorem countP_registerFail_copy (m : String) : (registerFail m).countP isCopyEv = 0 := by
  simp [registerFail, List.countP_cons, isCopyEv]

theorem countP_registerFail_cuke (m : String) : (registerFail m).countP isCucumberEv = 0 := by
  simp [registerFail, List.countP_cons, isCucumberEv]

theorem countP_registerFail_bundle (m : String) : (registerFail m).countP isBundleEv = 0 := by
  simp [registerFail, List.countP_cons, isBundleEv]

theorem countP_registerFail_simq (m : String) : (registerFail m).countP isSimQueryEv = 0 := by
  simp [registerFail, List.countP_cons, isSimQueryEv]

theorem countP_registerFail_gem (i : Nat) (m : String) :
    (registerFail m).countP (isGemInstallEv i) = 0 := by
  simp [registerFail, List.countP_cons, isGemInstallEv]

/-! ### Inventory of the gem-install loop -/

theorem runInstalls_inl {failAt : Nat → Option String} :
    ∀ {cmds : List (List String)} {i : Nat} {evs : List Event},
    runInstalls failAt cmds i = .inl evs →
    ∃ p m, evs = p ++ registerFail m ∧ ∀ e ∈ p, ∃ j c, i ≤ j ∧ e = .runGemInstall j c := by
  intro cmds
  induction cmds with
  | nil =>
    intro i evs h
    simp [runInstalls] at h
  | cons c rest ih =>
    intro i evs h
    cases hfa : failAt i with
    | some e =>
      simp only [runInstalls, hfa] at h
      injection h with h
      subst h
      refine ⟨[.runGemInstall i c], _, rfl, ?_⟩
      intro e' he'
      simp only [List.mem_singleton] at he'
      exact ⟨i, c, le_refl _, he'⟩
    | none =>
      cases hrec : runInstalls failAt rest (i + 1) with
      | inl evs' =>
        simp only [runInstalls, hfa, hrec] at h
        injection h with h
        subst h
        obtain ⟨p, m, hpm, hall⟩ := ih hrec
        refine ⟨.runGemInstall i c :: p, m, by rw [hpm]; rfl, ?_⟩
        intro e' he'
        rcases List.mem_cons.mp he' with rfl | he''
        · exact ⟨i, c, le_refl _, rfl⟩
        · obtain ⟨j, c', hij, rfl⟩ := hall e' he''
          exact ⟨j, c', by omega, rfl⟩
      | inr evs' =>
        simp only [runInstalls, hfa, hrec] at h
        cases h

theorem runInstalls_inr {failAt : Nat → Option String} :
    ∀ {cmds : List (List String)} {i : Nat} {evs : List Event},
    runInstalls failAt cmds i = .inr evs →
    ∀ e ∈ evs, ∃ j c, i ≤ j ∧ e = .runGemInstall j c := by
  intro cmds
  induction cmds with
  | nil =>
    intro i evs h
    simp only [runInstalls] at h
    injection h with h
    subst h
    simp
  | cons c rest ih =>
    intro i evs h
    cases hfa : failAt i with
    | some e =>
      simp only [runInstalls, hfa] at h
      cases h
    | none =>
      cases hrec : runInstalls failAt rest (i + 1) with
      | inl evs' =>
        simp only [runInstalls, hfa, hrec] at h
        cases h
      | inr evs' =>
        simp only [runInstalls, hfa, hrec] at h
        injection h with h
        subst h
        intro e' he'
        rcases List.mem_cons.mp he' with rfl | he''
        · exact ⟨i, c, le_refl _, rfl⟩
        · obtain ⟨j, c', hij, rfl⟩ := ih hrec e' he''
          exact ⟨j, c', by omega, rfl⟩

theorem runInstalls_count_zero {failAt : Nat → Option String} {cmds : List (List String)}
    {i : Nat} {evs : List Event} {j : Nat} (hj : j < i)
    (h : runInstalls failAt cmds i = .inl evs ∨ runInstalls failAt cmds i = .inr evs) :
    evs.countP (isGemInstallEv j) = 0 := by
  rcases h with h | h
  · obtain ⟨p, m, rfl, hall⟩ := runInstalls_inl h
    rw [List.countP_append, countP_registerFail_gem]
    have hp : p.countP (isGemInstallEv j) = 0 := by
      rw [List.countP_eq_zero]
      intro e he
      obtain ⟨k, c, hk, rfl⟩ := hall e he
      simp only [isGemInstallEv]
      simp only [beq_iff_eq]
      omega
    omega
  · rw [List.countP_eq_zero]
    intro e he
    obtain ⟨k, c, hk, rfl⟩ := runInstalls_inr h e he
    simp only [isGemInstallEv]
    simp only [beq_iff_eq]
    omega

theorem runInstalls_count_le {failAt : Nat → Option String} (j : Nat) :
    ∀ (cmds : List (List String)) (i : Nat) (evs : List Event),
    (runInstalls failAt cmds i = .inl evs ∨ runInstalls failAt cmds i = .inr evs) →
    evs.countP (isGemInstallEv j) ≤ 1 := by
  intro cmds
  induction cmds with
  | nil =>
    intro i evs h
    rcases h with h | h
    · simp [runInstalls] at h
    · simp only [runInstalls] at h
      injection h with h
      subst h
      simp
  | cons c rest ih =>
    intro i evs h
    cases hfa : failAt i with
    | some e =>
      rcases h with h | h
      · simp only [runInstalls, hfa] at h
        injection h with h
        subst h
        rw [List.countP_append, countP_registerFail_gem]
        by_cases hji : i = j
        · simp [List.countP_cons, isGemInstallEv, hji]
        · simp [List.countP_cons, isGemInstallEv, hji]
      · simp only [runInstalls, hfa] at h
        cases h
    | none =>
      cases hrec : runInstalls failAt rest (i + 1) with
      | inl evs' =>
        rcases h with h | h
        · simp only [runInstalls, hfa, hrec] at h
          injection h with h
          subst h
          rw [List.countP_cons]
          by_cases hji : j = i
          · subst hji
            have h0 := runInstalls_count_zero (j := j) (show j < j + 1 by omega) (Or.inl hrec)
            have hhead : isGemInstallEv j (Event.runGemInstall j c) = true := by
              simp [isGemInstallEv]
            rw [h0, hhead]
            simp
          · have hle := ih (i + 1) evs' (Or.inl hrec)
            have hhead : isGemInstallEv j (Event.runGemInstall i c) = false := by
              simp only [isGemInstallEv, beq_eq_false_iff_ne]
              omega
            rw [hhead]
            simpa using hle
        · simp only [runInstalls, hfa, hrec] at h
          cases h
      | inr evs' =>
        rcases h with h | h
        · simp only [runInstalls, hfa, hrec] at h
          cases h
        · simp only [runInstalls, hfa, hrec] at h
          injection h with h
          subst h
          rw [List.countP_cons]
          by_cases hji : j = i
          · subst hji
            have h0 := runInstalls_count_zero (j := j) (show j < j + 1 by omega) (Or.inr hrec)
            have hhead : isGemInstallEv j (Event.runGemInstall j c) = true := by
              simp [isGemInstallEv]
            rw [h0, hhead]
            simp
          · have hle := ih (i + 1) evs' (Or.inr hrec)
            have hhead : isGemInstallEv j (Event.runGemInstall i c) = false := by
              simp only [isGemInstallEv, beq_eq_false_iff_ne]
              omega
            rw [hhead]
            simpa using hle

/-! ### Inventory of the part_001 stages -/

namespace Part001

theorem monotouchStage_inl {w : World} {evs : List Event} (h : monotouchStage w = .inl evs) :
    ∃ p m, evs = p ++ registerFail m ∧ ∀ e ∈ p, isCopyEv e = true := by
  unfold monotouchStage at h
  by_cases hap : w.cfg.appPath = ""
  · rw [if_pos hap] at h
    cases h
  · rw [if_neg hap] at h
    cases h32 : w.mono32IsDir with
    | error e =>
      simp only [h32] at h
      injection h with h
      subst h
      exact ⟨[], _, rfl, by simp⟩
    | ok m32 =>
      simp only [h32] at h
      cases h64 : w.mono64IsDir with
      | error e =>
        simp only [h64] at h
        injection h with h
        subst h
        exact ⟨[], _, rfl, by simp⟩
      | ok m64 =>
        simp only [h64] at h
        by_cases hmm : m32 && m64
        · rw [if_pos hmm] at h
          cases h64b : w.is64Bit with
          | error e =>
            simp only [h64b] at h
            injection h with h
            subst h
            exact ⟨[], _, rfl, by simp⟩
          | ok is64 =>
            simp only [h64b] at h
            cases htmp : w.tmpDir with
            | error e =>
              simp only [htmp] at h
              injection h with h
              subst h
              exact ⟨[], _, rfl, by simp⟩
            | ok tmp =>
              simp only [htmp] at h
              cases hca : w.copyAppErr with
              | some e =>
                simp only [hca] at h
                injection h with h
                subst h
                exact ⟨[.copyDir w.cfg.appPath tmp false], _, rfl, by simp [isCopyEv]⟩
              | none =>
                simp only [hca] at h
                cases hcm : w.copyMonoErr with
                | some e =>
                  simp only [hcm] at h
                  injection h with h
                  subst h
                  refine ⟨[.copyDir w.cfg.appPath tmp false,
                    .copyDir (filepathJoin (filepathJoin tmp (filepathBase w.cfg.appPath))
                      (if is64 then ".monotouch-64" else ".monotouch-32"))
                      (filepathJoin tmp (filepathBase w.cfg.appPath)) true], _, rfl, ?_⟩
                  intro e' he'
                  rcases List.mem_cons.mp he' with rfl | he''
                  · rfl
                  · rcases List.mem_singleton.mp he'' with rfl
                    rfl
                | none =>
                  simp only [hcm] at h
                  cases h
        · rw [if_neg hmm] at h
          cases h

theorem monotouchStage_inr {w : World} {evs : List Event} {ap : String}
    (h : monotouchStage w = .inr (evs, ap)) : ∀ e ∈ evs, isCopyEv e = true := by
  unfold monotouchStage at h
  by_cases hap : w.cfg.appPath = ""
  · rw [if_pos hap] at h
    simp only [Sum.inr.injEq, Prod.mk.injEq] at h
    obtain ⟨h1, -⟩ := h
    subst h1
    simp
  · rw [if_neg hap] at h
    cases h32 : w.mono32IsDir with
    | error e =>
      simp only [h32] at h
      cases h
    | ok m32 =>
      simp only [h32] at h
      cases h64 : w.mono64IsDir with
      | error e =>
        simp only [h64] at h
        cases h
      | ok m64 =>
        simp only [h64] at h
        by_cases hmm : m32 && m64
        · rw [if_pos hmm] at h
          cases h64b : w.is64Bit with
          | error e =>
            simp only [h64b] at h
            cases h
          | ok is64 =>
            simp only [h64b] at h
            cases htmp : w.tmpDir with
            | error e =>
              simp only [htmp] at h
              cases h
            | ok tmp =>
              simp only [htmp] at h
              cases hca : w.copyAppErr with
              | some e =>
                simp only [hca] at h
                cases h
              | none =>
                simp only [hca] at h
                cases hcm : w.copyMonoErr with
                | some e =>
                  simp only [hcm] at h
                  cases h
                | none =>
                  simp only [hcm] at h
                  simp only [Sum.inr.injEq, Prod.mk.injEq] at h
                  obtain ⟨h1, -⟩ := h
                  subst h1
                  intro e' he'
                  rcases List.mem_cons.mp he' with rfl | he''
                  · rfl
                  · rcases List.mem_singleton.mp he'' with rfl
                    rfl
        · rw [if_neg hmm] at h
          simp only [Sum.inr.injEq, Prod.mk.injEq] at h
          obtain ⟨h1, -⟩ := h
          subst h1
          simp

theorem gemfileStage_inl {w : World} {g : String} {evs : List Event}
    (h : gemfileStage w g = .inl evs) : ∃ m, evs = registerFail m := by
  unfold gemfileStage at h
  by_cases hg : g = ""
  · rw [if_pos hg] at h
    cases h
  · rw [if_neg hg] at h
    cases hge : w.gemfileExists with
    | error e =>
      simp only [hge] at h
      injection h with h
      exact ⟨_, h.symm⟩
    | ok b =>
      simp only [hge] at h
      cases b with
      | false => cases h
      | true =>
        cases hgl : w.gemfileLockExists with
        | error e =>
          simp only [hgl] at h
          injection h with h
          exact ⟨_, h.symm⟩
        | ok b2 =>
          simp only [hgl] at h
          cases b2 with
          | false => cases h
          | true =>
            cases hlc : w.lockContent with
            | error e =>
              simp only [hlc] at h
              injection h with h
              exact ⟨_, h.symm⟩
            | ok content =>
              simp only [hlc] at h
              cases h

end Part001

/-- Events of the gem-install loop never satisfy a predicate that is false on
every `runGemInstall` event and zero on `registerFail` tails. -/
theorem runInstalls_countP_zero {q : Event → Bool} (hq : ∀ j c, q (.runGemInstall j c) = false)
    (hfail : ∀ m, (registerFail m).countP q = 0)
    {failAt : Nat → Option String} {cmds : List (List String)} {i : Nat} {evs : List Event}
    (h : runInstalls failAt cmds i = .inl evs ∨ runInstalls failAt cmds i = .inr evs) :
    evs.countP q = 0 := by
  rcases h with h | h
  · obtain ⟨p, m, rfl, hall⟩ := runInstalls_inl h
    rw [List.countP_append, hfail]
    have hp : p.countP q = 0 := by
      rw [List.countP_eq_zero]
      intro e he
      obtain ⟨j, c, -, rfl⟩ := hall e he
      simp [hq]
    omega
  · rw [List.countP_eq_zero]
    intro e he
    obtain ⟨j, c, -, rfl⟩ := runInstalls_inr h e he
    simp [hq]

namespace Part001

theorem installStage_inl {w : World} {g : String} {ub : Bool} {evs : List Event}
    (h : installStage w g ub = .inl evs) :
    ∃ p m, evs = p ++ registerFail m ∧ (∀ e ∈ p, isInstallEv e = true) ∧
      evs.countP isBundleEv ≤ 1 ∧ (∀ i, evs.countP (isGemInstallEv i) ≤ 1) := by
  unfold installStage at h
  by_cases hv : w.cfg.calabashCucumberVersion ≠ ""
  · rw [if_pos hv] at h
    cases hgi : w.gemInstalled with
    | error e =>
      simp only [hgi] at h
      injection h with h
      subst h
      refine ⟨[.checkGemInstalled "calabash-cucumber" w.cfg.calabashCucumberVersion], _, rfl,
        ?_, ?_, ?_⟩
      · intro e' he'
        rcases List.mem_singleton.mp he' with rfl
        rfl
      · simp [List.countP_append, List.countP_cons, isBundleEv, registerFail]
      · intro i
        simp [List.countP_append, List.countP_cons, isGemInstallEv, registerFail]
    | ok b =>
      simp only [hgi] at h
      cases b with
      | true => cases h
      | false =>
        cases hgc : w.gemInstallCmds with
        | error e =>
          simp only [hgc] at h
          injection h with h
          subst h
          refine ⟨[.checkGemInstalled "calabash-cucumber" w.cfg.calabashCucumberVersion,
            .gemInstallReq "calabash-cucumber" w.cfg.calabashCucumberVersion], _, rfl,
            ?_, ?_, ?_⟩
          · intro e' he'
            rcases List.mem_cons.mp he' with rfl | he''
            · rfl
            · rcases List.mem_singleton.mp he'' with rfl
              rfl
          · simp [List.countP_append, List.countP_cons, isBundleEv, registerFail]
          · intro i
            simp [List.countP_append, List.countP_cons, isGemInstallEv, registerFail]
        | ok cmds =>
          simp only [hgc] at h
          cases hri : runInstalls w.gemInstallErr cmds 0 with
          | inr evs' =>
            simp only [hri] at h
            cases h
          | inl evs' =>
            simp only [hri] at h
            injection h with h
            subst h
            obtain ⟨p', m, hpm, hall⟩ := runInstalls_inl hri
            refine ⟨[.checkGemInstalled "calabash-cucumber" w.cfg.calabashCucumberVersion,
              .gemInstallReq "calabash-cucumber" w.cfg.calabashCucumberVersion] ++ p', m,
              by rw [hpm]; simp [List.append_assoc], ?_, ?_, ?_⟩
            · intro e' he'
              rcases List.mem_append.mp he' with hcg | hp'
              · rcases List.mem_cons.mp hcg with rfl | hcg2
                · rfl
                · rcases List.mem_singleton.mp hcg2 with rfl
                  rfl
              · obtain ⟨j, c, -, rfl⟩ := hall e' hp'
                rfl
            · have hz := runInstalls_countP_zero (q := isBundleEv) (fun _ _ => rfl)
                countP_registerFail_bundle (Or.inl hri)
              rw [List.countP_append]
              have hh : List.countP isBundleEv
                  [Event.checkGemInstalled "calabash-cucumber" w.cfg.calabashCucumberVersion,
                   Event.gemInstallReq "calabash-cucumber" w.cfg.calabashCucumberVersion] = 0 := by
                simp [List.countP_cons, isBundleEv]
              omega
            · intro i
              have hle := runInstalls_count_le i cmds 0 evs' (Or.inl hri)
              rw [List.countP_append]
              have hh : List.countP (isGemInstallEv i)
                  [Event.checkGemInstalled "calabash-cucumber" w.cfg.calabashCucumberVersion,
                   Event.gemInstallReq "calabash-cucumber" w.cfg.calabashCucumberVersion] = 0 := by
                simp [List.countP_cons, isGemInstallEv]
              omega
  · rw [if_neg hv] at h
    by_cases hub : ub = true
    · rw [if_pos hub] at h
      cases hbc : w.bundleCmdErr with
      | some e =>
        simp only [hbc] at h
        injection h with h
        subst h
        exact ⟨[], _, rfl, by simp, by simp [registerFail, List.countP_cons, isBundleEv],
          fun i => by simp [registerFail, List.countP_cons, isGemInstallEv]⟩
      | none =>
        simp only [hbc] at h
        cases hbi : w.bundleInstallErr with
        | some e =>
          simp only [hbi] at h
          injection h with h
          subst h
          refine ⟨[.runBundleInstall ["BUNDLE_GEMFILE=" ++ g]], _, rfl, ?_, ?_, ?_⟩
          · intro e' he'
            rcases List.mem_singleton.mp he' with rfl
            rfl
          · simp [List.countP_append, List.countP_cons, isBundleEv, registerFail]
          · intro i
            simp [List.countP_append, List.countP_cons, isGemInstallEv, registerFail]
        | none =>
          simp only [hbi] at h
          cases h
    · rw [if_neg hub] at h
      cases hgc : w.gemInstallCmds with
      | error e =>
        simp only [hgc] at h
        injection h with h
        subst h
        refine ⟨[.gemInstallReq "calabash-cucumber" ""], _, rfl, ?_, ?_, ?_⟩
        · intro e' he'
          rcases List.mem_singleton.mp he' with rfl
          rfl
        · simp [List.countP_append, List.countP_cons, isBundleEv, registerFail]
        · intro i
          simp [List.countP_append, List.countP_cons, isGemInstallEv, registerFail]
      | ok cmds =>
        simp only [hgc] at h
        cases hri : runInstalls w.gemInstallErr cmds 0 with
        | inr evs' =>
          simp only [hri] at h
          cases h
        | inl evs' =>
          simp only [hri] at h
          injection h with h
          subst h
          obtain ⟨p', m, hpm, hall⟩ := runInstalls_inl hri
          refine ⟨.gemInstallReq "calabash-cucumber" "" :: p', m,
            by rw [hpm]; rfl, ?_, ?_, ?_⟩
          · intro e' he'
            rcases List.mem_cons.mp he' with rfl | hp'
            · rfl
            · obtain ⟨j, c, -, rfl⟩ := hall e' hp'
              rfl
          · have hz := runInstalls_countP_zero (q := isBundleEv) (fun _ _ => rfl)
              countP_registerFail_bundle (Or.inl hri)
            rw [List.countP_cons]
            simp [isBundleEv, hz]
          · intro i
            have hle := runInstalls_count_le i cmds 0 evs' (Or.inl hri)
            rw [List.countP_cons]
            have hh : isGemInstallEv i (Event.gemInstallReq "calabash-cucumber" "") = false := rfl
            rw [hh]
            simpa using hle

theorem installStage_inr {w : World} {g : String} {ub : Bool} {evs : List Event}
    (h : installStage w g ub = .inr evs) :
    (∀ e ∈ evs, isInstallEv e = true) ∧
      evs.countP isBundleEv ≤ 1 ∧ (∀ i, evs.countP (isGemInstallEv i) ≤ 1) := by
  unfold installStage at h
  by_cases hv : w.cfg.calabashCucumberVersion ≠ ""
  · rw [if_pos hv] at h
    cases hgi : w.gemInstalled with
    | error e =>
      simp only [hgi] at h
      cases h
    | ok b =>
      simp only [hgi] at h
      cases b with
      | true =>
        injection h with h
        subst h
        refine ⟨?_, by simp [List.countP_cons, isBundleEv],
          fun i => by simp [List.countP_cons, isGemInstallEv]⟩
        intro e' he'
        rcases List.mem_singleton.mp he' with rfl
        rfl
      | false =>
        cases hgc : w.gemInstallCmds with
        | error e =>
          simp only [hgc] at h
          cases h
        | ok cmds =>
          simp only [hgc] at h
          cases hri : runInstalls w.gemInstallErr cmds 0 with
          | inl evs' =>
            simp only [hri] at h
            cases h
          | inr evs' =>
            simp only [hri] at h
            injection h with h
            subst h
            have hall := runInstalls_inr hri
            refine ⟨?_, ?_, ?_⟩
            · intro e' he'
              rcases List.mem_append.mp he' with hcg | hp'
              · rcases List.mem_cons.mp hcg with rfl | hcg2
                · rfl
                · rcases List.mem_singleton.mp hcg2 with rfl
                  rfl
              · obtain ⟨j, c, -, rfl⟩ := hall e' hp'
                rfl
            · have hz := runInstalls_countP_zero (q := isBundleEv) (fun _ _ => rfl)
                countP_registerFail_bundle (Or.inr hri)
              rw [List.countP_append]
              have hh : List.countP isBundleEv
                  [Event.checkGemInstalled "calabash-cucumber" w.cfg.calabashCucumberVersion,
                   Event.gemInstallReq "calabash-cucumber" w.cfg.calabashCucumberVersion] = 0 := by
                simp [List.countP_cons, isBundleEv]
              omega
            · intro i
              have hle := runInstalls_count_le i cmds 0 evs' (Or.inr hri)
              rw [List.countP_append]
              have hh : List.countP (isGemInstallEv i)
                  [Event.checkGemInstalled "calabash-cucumber" w.cfg.calabashCucumberVersion,
                   Event.gemInstallReq "calabash-cucumber" w.cfg.calabashCucumberVersion] = 0 := by
                simp [List.countP_cons, isGemInstallEv]
              omega
  · rw [if_neg hv] at h
    by_cases hub : ub = true
    · rw [if_pos hub] at h
      cases hbc : w.bundleCmdErr with
      | some e =>
        simp only [hbc] at h
        cases h
      | none =>
        simp only [hbc] at h
        cases hbi : w.bundleInstallErr with
        | some e =>
          simp only [hbi] at h
          cases h
        | none =>
          simp only [hbi] at h
          injection h with h
          subst h
          refine ⟨?_, by simp [List.countP_cons, isBundleEv],
            fun i => by simp [List.countP_cons, isGemInstallEv]⟩
          intro e' he'
          rcases List.mem_singleton.mp he' with rfl
          rfl
    · rw [if_neg hub] at h
      cases hgc : w.gemInstallCmds with
      | error e =>
        simp only [hgc] at h
        cases h
      | ok cmds =>
        simp only [hgc] at h
        cases hri : runInstalls w.gemInstallErr cmds 0 with
        | inl evs' =>
          simp only [hri] at h
          cases h
        | inr evs' =>
          simp only [hri] at h
          injection h with h
          subst h
          have hall := runInstalls_inr hri
          refine ⟨?_, ?_, ?_⟩
          · intro e' he'
            rcases List.mem_cons.mp he' with rfl | hp'
            · rfl
            · obtain ⟨j, c, -, rfl⟩ := hall e' hp'
              rfl
          · have hz := runInstalls_countP_zero (q := isBundleEv) (fun _ _ => rfl)
              countP_registerFail_bundle (Or.inr hri)
            rw [List.countP_cons]
            simp [isBundleEv, hz]
          · intro i
            have hle := runInstalls_count_le i cmds 0 evs' (Or.inr hri)
            rw [List.countP_cons]
            have hh : isGemInstallEv i (Event.gemInstallReq "calabash-cucumber" "") = false := rfl
            rw [hh]
            simpa using hle

theorem installStage_explicit {w : World} {g : String} {ub : Bool} {evs : List Event}
    (hv : w.cfg.calabashCucumberVersion ≠ "")
    (h : installStage w g ub = .inl evs ∨ installStage w g ub = .inr evs) :
    evs.countP isBundleEv = 0 ∧
    (∀ gm ver, Event.checkGemInstalled gm ver ∈ evs →
      gm = "calabash-cucumber" ∧ ver = w.cfg.calabashCucumberVersion) ∧
    (∀ gm ver, Event.gemInstallReq gm ver ∈ evs →
      gm = "calabash-cucumber" ∧ ver = w.cfg.calabashCucumberVersion) := by
  have hnoRF : ∀ (m : String) (gm ver : String),
      Event.checkGemInstalled gm ver ∉ registerFail m ∧
      Event.gemInstallReq gm ver ∉ registerFail m := by
    intro m gm ver
    constructor <;> simp [registerFail]
  rcases h with h | h
  all_goals (
    unfold installStage at h
    rw [if_pos hv] at h)
  · cases hgi : w.gemInstalled with
    | error e =>
      simp only [hgi] at h
      injection h with h
      subst h
      refine ⟨by simp [registerFail, List.countP_cons, isBundleEv], ?_, ?_⟩
      · intro gm ver hmem
        rcases List.mem_append.mp hmem with h1 | h1
        · rcases List.mem_singleton.mp h1 with h2
          injection h2 with h3 h4
          exact ⟨h3, h4⟩
        · exact absurd h1 (hnoRF _ gm ver).1
      · intro gm ver hmem
        rcases List.mem_append.mp hmem with h1 | h1
        · simp at h1
        · exact absurd h1 (hnoRF _ gm ver).2
    | ok b =>
      simp only [hgi] at h
      cases b with
      | true => cases h
      | false =>
        cases hgc : w.gemInstallCmds with
        | error e =>
          simp only [hgc] at h
          injection h with h
          subst h
          refine ⟨by simp [registerFail, List.countP_cons, isBundleEv], ?_, ?_⟩
          · intro gm ver hmem
            rcases List.mem_append.mp hmem with h1 | h1
            · rcases List.mem_cons.mp h1 with h2 | h2
              · injection h2 with h3 h4
                exact ⟨h3, h4⟩
              · simp at h2
            · exact absurd h1 (hnoRF _ gm ver).1
          · intro gm ver hmem
            rcases List.mem_append.mp hmem with h1 | h1
            · rcases List.mem_cons.mp h1 with h2 | h2
              · cases h2
              · rcases List.mem_singleton.mp h2 with h3
                injection h3 with h4 h5
                exact ⟨h4, h5⟩
            · exact absurd h1 (hnoRF _ gm ver).2
        | ok cmds =>
          simp only [hgc] at h
          cases hri : runInstalls w.gemInstallErr cmds 0 with
          | inr evs' =>
            simp only [hri] at h
            cases h
          | inl evs' =>
            simp only [hri] at h
            injection h with h
            subst h
            obtain ⟨p', m, hpm, hall⟩ := runInstalls_inl hri
            have hz := runInstalls_countP_zero (q := isBundleEv) (fun _ _ => rfl)
              countP_registerFail_bundle (Or.inl hri)
            have hnm : ∀ (gm ver : String), Event.checkGemInstalled gm ver ∉ evs' ∧
                Event.gemInstallReq gm ver ∉ evs' := by
              intro gm ver
              rw [hpm]
              constructor <;>
                (intro hmem
                 rcases List.mem_append.mp hmem with h1 | h1
                 · obtain ⟨j, c, -, hje⟩ := hall _ h1
                   cases hje
                 · first
                   | exact absurd h1 (hnoRF _ gm ver).1
                   | exact absurd h1 (hnoRF _ gm ver).2)
            refine ⟨?_, ?_, ?_⟩
            · rw [List.countP_append]
              have hh : List.countP isBundleEv
                  [Event.checkGemInstalled "calabash-cucumber" w.cfg.calabashCucumberVersion,
                   Event.gemInstallReq "calabash-cucumber" w.cfg.calabashCucumberVersion] = 0 := by
                simp [List.countP_cons, isBundleEv]
              omega
            · intro gm ver hmem
              rcases List.mem_append.mp hmem with h1 | h1
              · rcases List.mem_cons.mp h1 with h2 | h2
                · injection h2 with h3 h4
                  exact ⟨h3, h4⟩
                · simp at h2
              · exact absurd h1 (hnm gm ver).1
            · intro gm ver hmem
              rcases List.mem_append.mp hmem with h1 | h1
              · rcases List.mem_cons.mp h1 with h2 | h2
                · cases h2
                · rcases List.mem_singleton.mp h2 with h3
                  injection h3 with h4 h5
                  exact ⟨h4, h5⟩
              · exact absurd h1 (hnm gm ver).2
  · cases hgi : w.gemInstalled with
    | error e =>
      simp only [hgi] at h
      cases h
    | ok b =>
      simp only [hgi] at h
      cases b with
      | true =>
        injection h with h
        subst h
        refine ⟨by simp [List.countP_cons, isBundleEv], ?_, ?_⟩
        · intro gm ver hmem
          rcases List.mem_singleton.mp hmem with h2
          injection h2 with h3 h4
          exact ⟨h3, h4⟩
        · intro gm ver hmem
          simp at hmem
      | false =>
        cases hgc : w.gemInstallCmds with
        | error e =>
          simp only [hgc] at h
          cases h
        | ok cmds =>
          simp only [hgc] at h
          cases hri : runInstalls w.gemInstallErr cmds 0 with
          | inl evs' =>
            simp only [hri] at h
            cases h
          | inr evs' =>
            simp only [hri] at h
            injection h with h
            subst h
            have hall := runInstalls_inr hri
            have hz := runInstalls_countP_zero (q := isBundleEv) (fun _ _ => rfl)
              countP_registerFail_bundle (Or.inr hri)
            have hnm : ∀ (gm ver : String), Event.checkGemInstalled gm ver ∉ evs' ∧
                Event.gemInstallReq gm ver ∉ evs' := by
              intro gm ver
              constructor <;>
                (intro hmem
                 obtain ⟨j, c, -, hje⟩ := hall _ hmem
                 cases hje)
            refine ⟨?_, ?_, ?_⟩
            · rw [List.countP_append]
              have hh : List.countP isBundleEv
                  [Event.checkGemInstalled "calabash-cucumber" w.cfg.calabashCucumberVersion,
                   Event.gemInstallReq "calabash-cucumber" w.cfg.calabashCucumberVersion] = 0 := by
                simp [List.countP_cons, isBundleEv]
              omega
            · intro gm ver hmem
              rcases List.mem_append.mp hmem with h1 | h1
              · rcases List.mem_cons.mp h1 with h2 | h2
                · injection h2 with h3 h4
                  exact ⟨h3, h4⟩
                · simp at h2
              · exact absurd h1 (hnm gm ver).1
            · intro gm ver hmem
              rcases List.mem_append.mp hmem with h1 | h1
              · rcases List.mem_cons.mp h1 with h2 | h2
                · cases h2
                · rcases List.mem_singleton.mp h2 with h3
                  injection h3 with h4 h5
                  exact ⟨h4, h5⟩
              · exact absurd h1 (hnm gm ver).2

end Part001

/-! ### Event class implications -/

theorem workEv_of_copy {e : Event} (h : isCopyEv e = true) : workEv e = true := by
  cases e <;> simp_all [isCopyEv, workEv]

theorem workEv_of_install {e : Event} (h : isInstallEv e = true) : workEv e = true := by
  cases e <;> simp_all [isInstallEv, workEv]

theorem copy_not_bundle {e : Event} (h : isCopyEv e = true) : isBundleEv e = false := by
  cases e <;> simp_all [isCopyEv, isBundleEv]

theorem copy_not_cuke {e : Event} (h : isCopyEv e = true) : isCucumberEv e = false := by
  cases e <;> simp_all [isCopyEv, isCucumberEv]

theorem copy_not_simq {e : Event} (h : isCopyEv e = true) : isSimQueryEv e = false := by
  cases e <;> simp_all [isCopyEv, isSimQueryEv]

theorem copy_not_gem {e : Event} (i : Nat) (h : isCopyEv e = true) :
    isGemInstallEv i e = false := by
  cases e <;> simp_all [isCopyEv, isGemInstallEv]

theorem install_not_cuke {e : Event} (h : isInstallEv e = true) : isCucumberEv e = false := by
  cases e <;> simp_all [isInstallEv, isCucumberEv]

theorem install_not_simq {e : Event} (h : isInstallEv e = true) : isSimQueryEv e = false := by
  cases e <;> simp_all [isInstallEv, isSimQueryEv]

namespace Part001

/-- Every part_001 run either ends in the `registerFail` tail (error log,
failure export, exit 1) after plain work events, or ends with the success
export followed by exit 0 after plain work events. -/
theorem run_shape (w : World) :
    (∃ p m, run w = p ++ registerFail m ∧ ∀ e ∈ p, workEv e = true) ∨
    (∃ p, run w = p ++ [Event.exportEnv "BITRISE_XAMARIN_TEST_RESULT" "succeeded", Event.exit 0] ∧
      ∀ e ∈ p, workEv e = true) := by
  unfold run
  cases hval : validate w with
  | some e => exact .inl ⟨[], _, rfl, by simp⟩
  | none =>
    cases hss : w.shellSplit with
    | error e => exact .inl ⟨[], _, rfl, by simp⟩
    | ok options =>
      cases hrs : resolvedSim w with
      | error e => exact .inl ⟨[.runSimQuery], _, rfl, by simp [workEv]⟩
      | ok info =>
        cases hms : monotouchStage w with
        | inl evs =>
          dsimp only
          obtain ⟨p, m, hpm, hall⟩ := monotouchStage_inl hms
          refine .inl ⟨.runSimQuery :: p, m, by rw [hpm]; rfl, ?_⟩
          intro e' he'
          rcases List.mem_cons.mp he' with rfl | he''
          · rfl
          · exact workEv_of_copy (hall e' he'')
        | inr pr =>
          obtain ⟨evs₁, appPath⟩ := pr
          dsimp only
          have hcopy := monotouchStage_inr hms
          have hwork₁ : ∀ e ∈ Event.runSimQuery :: evs₁, workEv e = true := by
            intro e' he'
            rcases List.mem_cons.mp he' with rfl | he''
            · rfl
            · exact workEv_of_copy (hcopy e' he'')
          cases haw : w.absWorkDir with
          | error e =>
            exact .inl ⟨.runSimQuery :: evs₁,
              "Failed to expand WorkDir (" ++ w.cfg.workDir ++ "), error: " ++ e,
              by dsimp only; rw [List.cons_append]; rfl, hwork₁⟩
          | ok workDir =>
            dsimp only
            cases hgf : (if w.cfg.gemFilePath = "" then Except.ok "" else w.absGemFilePath) with
            | error e =>
              exact .inl ⟨.runSimQuery :: evs₁,
                "Failed to expand GemFilePath (" ++ w.cfg.gemFilePath ++ "), error: " ++ e,
                by dsimp only; rw [List.cons_append]; rfl, hwork₁⟩
            | ok gemFilePath =>
              dsimp only
              cases hgs : gemfileStage w gemFilePath with
              | inl evs =>
                dsimp only
                obtain ⟨m, hm⟩ := gemfileStage_inl hgs
                exact .inl ⟨.runSimQuery :: evs₁, m, by rw [hm]; simp, hwork₁⟩
              | inr useBundler =>
                dsimp only
                cases his : installStage w gemFilePath useBundler with
                | inl evs₂ =>
                  dsimp only
                  obtain ⟨p, m, hpm, hall, -, -⟩ := installStage_inl his
                  refine .inl ⟨.runSimQuery :: (evs₁ ++ p), m, by rw [hpm]; simp, ?_⟩
                  intro e' he'
                  rcases List.mem_cons.mp he' with rfl | he''
                  · rfl
                  · rcases List.mem_append.mp he'' with h1 | h1
                    · exact workEv_of_copy (hcopy e' h1)
                    · exact workEv_of_install (hall e' h1)
                | inr evs₂ =>
                  dsimp only
                  obtain ⟨hall, -, -⟩ := installStage_inr his
                  cases hcc : w.cucumberCmdErr with
                  | some e =>
                    refine .inl ⟨.runSimQuery :: (evs₁ ++ evs₂),
                      "Failed to create command, error: " ++ e, by dsimp only; simp, ?_⟩
                    intro e' he'
                    rcases List.mem_cons.mp he' with rfl | he''
                    · rfl
                    · rcases List.mem_append.mp he'' with h1 | h1
                      · exact workEv_of_copy (hcopy e' h1)
                      · exact workEv_of_install (hall e' h1)
                  | none =>
                    dsimp only
                    cases hce : w.cucumberErr with
                    | some e =>
                      refine .inl ⟨.runSimQuery :: (evs₁ ++ (evs₂ ++
                        [.runCucumber (cucumberArgs w useBundler options)
                          (cucumberEnvs w useBundler gemFilePath appPath info)])),
                        "cucumber failed, error: " ++ e, by dsimp only; simp, ?_⟩
                      intro e' he'
                      rcases List.mem_cons.mp he' with rfl | he''
                      · rfl
                      · rcases List.mem_append.mp he'' with h1 | h1
                        · exact workEv_of_copy (hcopy e' h1)
                        · rcases List.mem_append.mp h1 with h2 | h2
                          · exact workEv_of_install (hall e' h2)
                          · rcases List.mem_singleton.mp h2 with rfl
                            rfl
                    | none =>
                      refine .inr ⟨.runSimQuery :: (evs₁ ++ (evs₂ ++
                        [.runCucumber (cucumberArgs w useBundler options)
                          (cucumberEnvs w useBundler gemFilePath appPath info)])),
                        by dsimp only; simp, ?_⟩
                      intro e' he'
                      rcases List.mem_cons.mp he' with rfl | he''
                      · rfl
                      · rcases List.mem_append.mp he'' with h1 | h1
                        · exact workEv_of_copy (hcopy e' h1)
                        · rcases List.mem_append.mp h1 with h2 | h2
                          · exact workEv_of_install (hall e' h2)
                          · rcases List.mem_singleton.mp h2 with rfl
                            rfl

theorem cuke_not_in_copy {a ev : List String} {p : List Event}
    (hp : ∀ e ∈ p, isCopyEv e = true) : Event.runCucumber a ev ∉ p := by
  intro hmem
  have hc := hp _ hmem
  simp [isCopyEv] at hc

theorem cuke_not_in_install {a ev : List String} {p : List Event}
    (hp : ∀ e ∈ p, isInstallEv e = true) : Event.runCucumber a ev ∉ p := by
  intro hmem
  have hc := hp _ hmem
  simp [isInstallEv] at hc

theorem cuke_not_in_registerFail {a ev : List String} (m : String) :
    Event.runCucumber a ev ∉ registerFail m := by
  simp [registerFail]

/-- Any cucumber invocation of a part_001 run carries the argument vector and
the environment built from the resolved simulator descriptor; and when the
cucumber command succeeds, the run ends with the success export and exit 0. -/
theorem run_cuke_master (w : World) (a ev : List String)
    (h : Event.runCucumber a ev ∈ run w) :
    (∃ info options useBundler gemFilePath appPath,
      resolvedSim w = .ok info ∧ w.shellSplit = .ok options ∧
      a = cucumberArgs w useBundler options ∧
      ev = cucumberEnvs w useBundler gemFilePath appPath info) ∧
    (w.cucumberErr = none →
      ∃ p, run w = p ++ [Event.exportEnv "BITRISE_XAMARIN_TEST_RESULT" "succeeded", Event.exit 0]) := by
  unfold run at h ⊢
  cases hval : validate w with
  | some e =>
    simp only [hval] at h
    exact absurd h (by simp [registerFail])
  | none =>
    simp only [hval] at h ⊢
    cases hss : w.shellSplit with
    | error e =>
      simp only [hss] at h
      exact absurd h (by simp [registerFail])
    | ok options =>
      simp only [hss] at h ⊢
      cases hrs : resolvedSim w with
      | error e =>
        simp only [hrs] at h
        exact absurd h (by simp [registerFail])
      | ok info =>
        simp only [hrs] at h ⊢
        cases hms : monotouchStage w with
        | inl evs =>
          simp only [hms] at h
          obtain ⟨p, m, hpm, hall⟩ := monotouchStage_inl hms
          rw [hpm] at h
          rcases List.mem_append.mp h with h1 | h1
          · simp at h1
          · rcases List.mem_append.mp h1 with h2 | h2
            · exact absurd h2 (cuke_not_in_copy hall)
            · exact absurd h2 (cuke_not_in_registerFail m)
        | inr pr =>
          obtain ⟨evs₁, appPath⟩ := pr
          simp only [hms] at h ⊢
          have hcopy := monotouchStage_inr hms
          cases haw : w.absWorkDir with
          | error e =>
            simp only [haw] at h
            rcases List.mem_append.mp h with h1 | h1
            · simp at h1
            · rcases List.mem_append.mp h1 with h2 | h2
              · exact absurd h2 (cuke_not_in_copy hcopy)
              · exact absurd h2 (cuke_not_in_registerFail _)
          | ok workDir =>
            simp only [haw] at h ⊢
            cases hgf : (if w.cfg.gemFilePath = "" then Except.ok "" else w.absGemFilePath) with
            | error e =>
              simp only [hgf] at h
              rcases List.mem_append.mp h with h1 | h1
              · simp at h1
              · rcases List.mem_append.mp h1 with h2 | h2
                · exact absurd h2 (cuke_not_in_copy hcopy)
                · exact absurd h2 (cuke_not_in_registerFail _)
            | ok gemFilePath =>
              simp only [hgf] at h ⊢
              cases hgs : gemfileStage w gemFilePath with
              | inl evs =>
                simp only [hgs] at h
                obtain ⟨m, hm⟩ := gemfileStage_inl hgs
                rw [hm] at h
                rcases List.mem_append.mp h with h1 | h1
                · simp at h1
                · rcases List.mem_append.mp h1 with h2 | h2
                  · exact absurd h2 (cuke_not_in_copy hcopy)
                  · exact absurd h2 (cuke_not_in_registerFail m)
              | inr useBundler =>
                simp only [hgs] at h ⊢
                cases his : installStage w gemFilePath useBundler with
                | inl evs₂ =>
                  simp only [his] at h
                  obtain ⟨p, m, hpm, hall, -, -⟩ := installStage_inl his
                  rw [hpm] at h
                  rcases List.mem_append.mp h with h1 | h1
                  · simp at h1
                  · rcases List.mem_append.mp h1 with h2 | h2
                    · exact absurd h2 (cuke_not_in_copy hcopy)
                    · rcases List.mem_append.mp h2 with h3 | h3
                      · exact absurd h3 (cuke_not_in_install hall)
                      · exact absurd h3 (cuke_not_in_registerFail m)
                | inr evs₂ =>
                  simp only [his] at h ⊢
                  obtain ⟨hall, -, -⟩ := installStage_inr his
                  cases hcc : w.cucumberCmdErr with
                  | some e =>
                    simp only [hcc] at h
                    rcases List.mem_append.mp h with h1 | h1
                    · simp at h1
                    · rcases List.mem_append.mp h1 with h2 | h2
                      · exact absurd h2 (cuke_not_in_copy hcopy)
                      · rcases List.mem_append.mp h2 with h3 | h3
                        · exact absurd h3 (cuke_not_in_install hall)
                        · exact absurd h3 (cuke_not_in_registerFail _)
                  | none =>
                    simp only [hcc] at h ⊢
                    cases hce : w.cucumberErr with
                    | some e =>
                      simp only [hce] at h
                      refine ⟨?_, ?_⟩
                      · rcases List.mem_append.mp h with h1 | h1
                        · simp at h1
                        · rcases List.mem_append.mp h1 with h2 | h2
                          · exact absurd h2 (cuke_not_in_copy hcopy)
                          · rcases List.mem_append.mp h2 with h3 | h3
                            · exact absurd h3 (cuke_not_in_install hall)
                            · rcases List.mem_append.mp h3 with h4 | h4
                              · rcases List.mem_singleton.mp h4 with h5
                                injection h5 with h6 h7
                                exact ⟨info, options, useBundler, gemFilePath, appPath,
                                  rfl, rfl, h6, h7⟩
                              · exact absurd h4 (cuke_not_in_registerFail _)
                      · intro hok
                        simp [hce] at hok
                    | none =>
                      simp only [hce] at h ⊢
                      refine ⟨?_, fun _ => ?_⟩
                      · rcases List.mem_append.mp h with h1 | h1
                        · simp at h1
                        · rcases List.mem_append.mp h1 with h2 | h2
                          · exact absurd h2 (cuke_not_in_copy hcopy)
                          · rcases List.mem_append.mp h2 with h3 | h3
                            · exact absurd h3 (cuke_not_in_install hall)
                            · rcases List.mem_cons.mp h3 with h5 | h5
                              · injection h5 with h6 h7
                                exact ⟨info, options, useBundler, gemFilePath, appPath,
                                  rfl, rfl, h6, h7⟩
                              · simp at h5
                      · refine ⟨Event.runSimQuery :: (evs₁ ++ (evs₂ ++
                          [.runCucumber (cucumberArgs w useBundler options)
                            (cucumberEnvs w useBundler gemFilePath appPath info)])), ?_⟩
                        simp

/-- Generic count bound over a part_001 run: a predicate that is false on
copy events and on the `registerFail` tail is counted at most once for the
simulator query, by the given bound within the installation stage, and at
most once for the cucumber invocation. -/
theorem run_countP (w : World) (q : Event → Bool) (simqB instB cukeB : Nat)
    (hcopy : ∀ e, isCopyEv e = true → q e = false)
    (hrf : ∀ m, (registerFail m).countP q = 0)
    (hexp : q (Event.exportEnv "BITRISE_XAMARIN_TEST_RESULT" "succeeded") = false)
    (hexit : q (Event.exit 0) = false)
    (hinstB : ∀ {g : String} {ub : Bool} {evs : List Event},
      (installStage w g ub = Sum.inl evs ∨ installStage w g ub = Sum.inr evs) →
      evs.countP q ≤ instB)
    (hcuke : ∀ a ev, (if q (Event.runCucumber a ev) = true then 1 else 0) ≤ cukeB)
    (hsimq : (if q Event.runSimQuery = true then 1 else 0) ≤ simqB) :
    (run w).countP q ≤ simqB + instB + cukeB := by
  have hcopyCnt : ∀ {p : List Event}, (∀ e ∈ p, isCopyEv e = true) → p.countP q = 0 := by
    intro p hp
    rw [List.countP_eq_zero]
    intro e he
    simp [hcopy e (hp e he)]
  unfold run
  cases hval : validate w with
  | some e =>
    rw [hrf]
    omega
  | none =>
    cases hss : w.shellSplit with
    | error e =>
      rw [hrf]
      omega
    | ok options =>
      cases hrs : resolvedSim w with
      | error e =>
        rw [List.countP_append, hrf]
        have := hsimq
        simp only [List.countP_cons, List.countP_nil] at *
        omega
      | ok info =>
        cases hms : monotouchStage w with
        | inl evs =>
          dsimp only
          obtain ⟨p, m, hpm, hall⟩ := monotouchStage_inl hms
          rw [List.countP_append, hpm, List.countP_append, hrf, hcopyCnt hall]
          have := hsimq
          simp only [List.countP_cons, List.countP_nil] at *
          omega
        | inr pr =>
          obtain ⟨evs₁, appPath⟩ := pr
          dsimp only
          have hcopy₁ := monotouchStage_inr hms
          have hc₁ : evs₁.countP q = 0 := hcopyCnt hcopy₁
          cases haw : w.absWorkDir with
          | error e =>
            rw [List.countP_append, List.countP_append, hrf, hc₁]
            have := hsimq
            simp only [List.countP_cons, List.countP_nil] at *
            omega
          | ok workDir =>
            dsimp only
            cases hgf : (if w.cfg.gemFilePath = "" then Except.ok "" else w.absGemFilePath) with
            | error e =>
              rw [List.countP_append, List.countP_append, hrf, hc₁]
              have := hsimq
              simp only [List.countP_cons, List.countP_nil] at *
              omega
            | ok gemFilePath =>
              dsimp only
              cases hgs : gemfileStage w gemFilePath with
              | inl evs =>
                dsimp only
                obtain ⟨m, hm⟩ := gemfileStage_inl hgs
                rw [List.countP_append, List.countP_append, hm, hrf, hc₁]
                have := hsimq
                simp only [List.countP_cons, List.countP_nil] at *
                omega
              | inr useBundler =>
                dsimp only
                cases his : installStage w gemFilePath useBundler with
                | inl evs₂ =>
                  dsimp only
                  have hib := hinstB (Or.inl his)
                  rw [List.countP_append, List.countP_append, hc₁]
                  have := hsimq
                  simp only [List.countP_cons, List.countP_nil] at *
                  omega
                | inr evs₂ =>
                  dsimp only
                  have hib := hinstB (Or.inr his)
                  cases hcc : w.cucumberCmdErr with
                  | some e =>
                    rw [List.countP_append, List.countP_append, List.countP_append, hrf, hc₁]
                    have := hsimq
                    simp only [List.countP_cons, List.countP_nil] at *
                    omega
                  | none =>
                    dsimp only
                    cases hce : w.cucumberErr with
                    | some e =>
                      rw [List.countP_append, List.countP_append, List.countP_append,
                        List.countP_append, hrf, hc₁]
                      have h1 := hsimq
                      have h2 := hcuke (cucumberArgs w useBundler options)
                        (cucumberEnvs w useBundler gemFilePath appPath info)
                      simp only [List.countP_cons, List.countP_nil] at *
                      omega
                    | none =>
                      rw [List.countP_append, List.countP_append, hc₁]
                      have h1 := hsimq
                      have h2 := hcuke (cucumberArgs w useBundler options)
                        (cucumberEnvs w useBundler gemFilePath appPath info)
                      simp only [List.countP_cons, List.countP_nil, List.countP_append,
                        hexp, hexit, Bool.false_eq_true, if_false] at *
                      omega

/-- The installation stage emits no event satisfying a predicate that is
false on installation-class events and zero on `registerFail` tails. -/
theorem installStage_countP_zero {w : World} {g : String} {ub : Bool} {evs : List Event}
    {q : Event → Bool} (hq : ∀ e, isInstallEv e = true → q e = false)
    (hrf : ∀ m, (registerFail m).countP q = 0)
    (h : installStage w g ub = Sum.inl evs ∨ installStage w g ub = Sum.inr evs) :
    evs.countP q = 0 := by
  rcases h with h | h
  · obtain ⟨p, m, rfl, hall, -, -⟩ := installStage_inl h
    rw [List.countP_append, hrf]
    have hp : p.countP q = 0 := by
      rw [List.countP_eq_zero]
      intro e he
      simp [hq e (hall e he)]
    omega
  · obtain ⟨hall, -, -⟩ := installStage_inr h
    rw [List.countP_eq_zero]
    intro e he
    simp [hq e (hall e he)]

end Part001

/-! ### Inventory of the main.go stages -/

namespace MainGo

/-- The simulator resolution of main.go: the queried map fed through
`getSimulatorInfo` (lines 94-120, 185-188). -/
def resolvedSim (w : World) : Except String InfoModel :=
  match w.simQuery with
  | .error e => .error e
  | .ok m => getSimulatorInfo m w.cfg.simulatorOsVersion w.cfg.simulatorDevice

theorem mainGemfileStage_inl {w : World} {evs : List Event}
    (h : gemfileStage w = .inl evs) : ∃ m, evs = registerFail m := by
  unfold gemfileStage at h
  by_cases hg : w.cfg.gemFilePath = ""
  · rw [if_pos hg] at h
    cases h
  · rw [if_neg hg] at h
    cases hge : w.gemfileExists with
    | error e =>
      simp only [hge] at h
      injection h with h
      exact ⟨_, h.symm⟩
    | ok b =>
      simp only [hge] at h
      cases b with
      | false => cases h
      | true =>
        cases hgl : w.gemfileLockExists with
        | error e =>
          simp only [hgl] at h
          injection h with h
          exact ⟨_, h.symm⟩
        | ok b2 =>
          simp only [hgl] at h
          cases b2 with
          | false => cases h
          | true =>
            cases hlc : w.lockContent with
            | error e =>
              simp only [hlc] at h
              injection h with h
              exact ⟨_, h.symm⟩
            | ok content =>
              simp only [hlc] at h
              cases h

theorem mainInstallStage_inl {w : World} {v : String} {ub : Bool} {evs : List Event}
    (h : installStage w v ub = .inl evs) :
    ∃ p m, evs = p ++ registerFail m ∧ ∀ e ∈ p, isInstallEv e = true := by
  unfold installStage at h
  by_cases hub : ub = true
  · rw [if_pos hub] at h
    cases hbc : w.bundleCmdErr with
    | some e =>
      simp only [hbc] at h
      injection h with h
      subst h
      exact ⟨[], _, rfl, by simp⟩
    | none =>
      simp only [hbc] at h
      cases hbi : w.bundleInstallErr with
      | some e =>
        simp only [hbi] at h
        injection h with h
        subst h
        refine ⟨[.runBundleInstall ["BUNDLE_GEMFILE=" ++ w.cfg.gemFilePath]], _, rfl, ?_⟩
        intro e' he'
        rcases List.mem_singleton.mp he' with rfl
        rfl
      | none =>
        simp only [hbi] at h
        cases h
  · rw [if_neg hub] at h
    by_cases hv : v ≠ ""
    · rw [if_pos hv] at h
      cases hgi : w.gemInstalled with
      | error e =>
        simp only [hgi] at h
        injection h with h
        subst h
        refine ⟨[.checkGemInstalled "calabash-cucumber" v], _, rfl, ?_⟩
        intro e' he'
        rcases List.mem_singleton.mp he' with rfl
        rfl
      | ok b =>
        simp only [hgi] at h
        cases b with
        | true => cases h
        | false =>
          cases hgc : w.gemInstallCmds with
          | error e =>
            simp only [hgc] at h
            injection h with h
            subst h
            refine ⟨[.checkGemInstalled "calabash-cucumber" v,
              .gemInstallReq "calabash-cucumber" v], _, rfl, ?_⟩
            intro e' he'
            rcases List.mem_cons.mp he' with rfl | he''
            · rfl
            · rcases List.mem_singleton.mp he'' with rfl
              rfl
          | ok cmds =>
            simp only [hgc] at h
            cases hri : runInstalls w.gemInstallErr cmds 0 with
            | inr evs' =>
              simp only [hri] at h
              cases h
            | inl evs' =>
              simp only [hri] at h
              injection h with h
              subst h
              obtain ⟨p', m, hpm, hall⟩ := runInstalls_inl hri
              refine ⟨[.checkGemInstalled "calabash-cucumber" v,
                .gemInstallReq "calabash-cucumber" v] ++ p', m,
                by rw [hpm]; simp [List.append_assoc], ?_⟩
              intro e' he'
              rcases List.mem_append.mp he' with hcg | hp'
              · rcases List.mem_cons.mp hcg with rfl | hcg2
                · rfl
                · rcases List.mem_singleton.mp hcg2 with rfl
                  rfl
              · obtain ⟨j, c, -, rfl⟩ := hall e' hp'
                rfl
    · rw [if_neg hv] at h
      cases hgc : w.gemInstallCmds with
      | error e =>
        simp only [hgc] at h
        injection h with h
        subst h
        refine ⟨[.gemInstallReq "calabash-cucumber" ""], _, rfl, ?_⟩
        intro e' he'
        rcases List.mem_singleton.mp he' with rfl
        rfl
      | ok cmds =>
        simp only [hgc] at h
        cases hri : runInstalls w.gemInstallErr cmds 0 with
        | inr evs' =>
          simp only [hri] at h
          cases h
        | inl evs' =>
          simp only [hri] at h
          injection h with h
          subst h
          obtain ⟨p', m, hpm, hall⟩ := runInstalls_inl hri
          refine ⟨.gemInstallReq "calabash-cucumber" "" :: p', m, by rw [hpm]; rfl, ?_⟩
          intro e' he'
          rcases List.mem_cons.mp he' with rfl | hp'
          · rfl
          · obtain ⟨j, c, -, rfl⟩ := hall e' hp'
            rfl

theorem mainInstallStage_inr {w : World} {v : String} {ub : Bool} {evs : List Event}
    (h : installStage w v ub = .inr evs) : ∀ e ∈ evs, isInstallEv e = true := by
  unfold installStage at h
  by_cases hub : ub = true
  · rw [if_pos hub] at h
    cases hbc : w.bundleCmdErr with
    | some e =>
      simp only [hbc] at h
      cases h
    | none =>
      simp only [hbc] at h
      cases hbi : w.bundleInstallErr with
      | some e =>
        simp only [hbi] at h
        cases h
      | none =>
        simp only [hbi] at h
        injection h with h
        subst h
        intro e' he'
        rcases List.mem_singleton.mp he' with rfl
        rfl
  · rw [if_neg hub] at h
    by_cases hv : v ≠ ""
    · rw [if_pos hv] at h
      cases hgi : w.gemInstalled with
      | error e =>
        simp only [hgi] at h
        cases h
      | ok b =>
        simp only [hgi] at h
        cases b with
        | true =>
          injection h with h
          subst h
          intro e' he'
          rcases List.mem_singleton.mp he' with rfl
          rfl
        | false =>
          cases hgc : w.gemInstallCmds with
          | error e =>
            simp only [hgc] at h
            cases h
          | ok cmds =>
            simp only [hgc] at h
            cases hri : runInstalls w.gemInstallErr cmds 0 with
            | inl evs' =>
              simp only [hri] at h
              cases h
            | inr evs' =>
              simp only [hri] at h
              injection h with h
              subst h
              have hall := runInstalls_inr hri
              intro e' he'
              rcases List.mem_append.mp he' with hcg | hp'
              · rcases List.mem_cons.mp hcg with rfl | hcg2
                · rfl
                · rcases List.mem_singleton.mp hcg2 with rfl
                  rfl
              · obtain ⟨j, c, -, rfl⟩ := hall e' hp'
                rfl
    · rw [if_neg hv] at h
      cases hgc : w.gemInstallCmds with
      | error e =>
        simp only [hgc] at h
        cases h
      | ok cmds =>
        simp only [hgc] at h
        cases hri : runInstalls w.gemInstallErr cmds 0 with
        | inl evs' =>
          simp only [hri] at h
          cases h
        | inr evs' =>
          simp only [hri] at h
          injection h with h
          subst h
          have hall := runInstalls_inr hri
          intro e' he'
          rcases List.mem_cons.mp he' with rfl | hp'
          · rfl
          · obtain ⟨j, c, -, rfl⟩ := hall e' hp'
            rfl

/-- Shape of every main.go run: either the `registerFail` tail after plain
work events, or (on its success path) merely exit 0 after plain work events:
the main.go variant performs no success export. -/
theorem mainRun_shape (w : World) :
    (∃ p m, run w = p ++ registerFail m ∧ ∀ e ∈ p, workEv e = true) ∨
    (∃ p, run w = p ++ [Event.exit 0] ∧ ∀ e ∈ p, workEv e = true) := by
  unfold run
  cases hval : validate w.cfg with
  | some e => exact .inl ⟨[], _, rfl, by simp⟩
  | none =>
    cases hsq : w.simQuery with
    | error e => exact .inl ⟨[.runSimQuery], _, rfl, by simp [workEv]⟩
    | ok simMap =>
      dsimp only
      cases hgsi : getSimulatorInfo simMap w.cfg.simulatorOsVersion w.cfg.simulatorDevice with
      | error e => exact .inl ⟨[.runSimQuery], _, rfl, by simp [workEv]⟩
      | ok info =>
        dsimp only
        have hsw : workEv (Event.setEnv "DEVICE_TARGET" info.id) = true := rfl
        cases hse : w.setenvErr with
        | some e =>
          exact .inl ⟨[.runSimQuery, .setEnv "DEVICE_TARGET" info.id], _, rfl, by
            intro e' he'
            rcases List.mem_cons.mp he' with rfl | he''
            · rfl
            · rcases List.mem_singleton.mp he'' with rfl
              rfl⟩
        | none =>
          dsimp only
          cases hrn : w.rubyNewErr with
          | some e =>
            exact .inl ⟨[.runSimQuery, .setEnv "DEVICE_TARGET" info.id], _, rfl, by
              intro e' he'
              rcases List.mem_cons.mp he' with rfl | he''
              · rfl
              · rcases List.mem_singleton.mp he'' with rfl
                rfl⟩
          | none =>
            dsimp only
            cases hgs : gemfileStage w with
            | inl evs =>
              obtain ⟨m, hm⟩ := mainGemfileStage_inl hgs
              refine .inl ⟨[.runSimQuery, .setEnv "DEVICE_TARGET" info.id], m,
                by rw [hm]; rfl, ?_⟩
              intro e' he'
              rcases List.mem_cons.mp he' with rfl | he''
              · rfl
              · rcases List.mem_singleton.mp he'' with rfl
                rfl
            | inr lock =>
              dsimp only
              cases his : installStage w (resolveVersion w lock).1 (resolveVersion w lock).2 with
              | inl evs =>
                obtain ⟨p, m, hpm, hall⟩ := mainInstallStage_inl his
                refine .inl ⟨.runSimQuery :: .setEnv "DEVICE_TARGET" info.id :: p, m,
                  by rw [hpm]; rfl, ?_⟩
                intro e' he'
                rcases List.mem_cons.mp he' with rfl | he''
                · rfl
                · rcases List.mem_cons.mp he'' with rfl | he3
                  · rfl
                  · exact workEv_of_install (hall e' he3)
              | inr evs =>
                dsimp only
                have hall := mainInstallStage_inr his
                have hwork : ∀ e' ∈ Event.runSimQuery :: Event.setEnv "DEVICE_TARGET" info.id :: evs,
                    workEv e' = true := by
                  intro e' he'
                  rcases List.mem_cons.mp he' with rfl | he''
                  · rfl
                  · rcases List.mem_cons.mp he'' with rfl | he3
                    · rfl
                    · exact workEv_of_install (hall e' he3)
                cases hcc : w.cucumberCmdErr with
                | some e =>
                  refine .inl ⟨.runSimQuery :: .setEnv "DEVICE_TARGET" info.id :: evs,
                    "Failed to create command, error: " ++ e, by simp, hwork⟩
                | none =>
                  dsimp only
                  cases hce : w.cucumberErr with
                  | some e =>
                    refine .inl ⟨.runSimQuery :: .setEnv "DEVICE_TARGET" info.id :: (evs ++
                      [.runCucumber (cucumberArgs (resolveVersion w lock).2)
                        (cucumberEnvs w (resolveVersion w lock).2 info)]),
                      "cucumber failed, error: " ++ e, by simp, ?_⟩
                    intro e' he'
                    rcases List.mem_cons.mp he' with rfl | he''
                    · rfl
                    · rcases List.mem_cons.mp he'' with rfl | he3
                      · rfl
                      · rcases List.mem_append.mp he3 with h4 | h4
                        · exact workEv_of_install (hall e' h4)
                        · rcases List.mem_singleton.mp h4 with rfl
                          rfl
                  | none =>
                    refine .inr ⟨.runSimQuery :: .setEnv "DEVICE_TARGET" info.id :: (evs ++
                      [.runCucumber (cucumberArgs (resolveVersion w lock).2)
                        (cucumberEnvs w (resolveVersion w lock).2 info)]), by simp, ?_⟩
                    intro e' he'
                    rcases List.mem_cons.mp he' with rfl | he''
                    · rfl
                    · rcases List.mem_cons.mp he'' with rfl | he3
                      · rfl
                      · rcases List.mem_append.mp he3 with h4 | h4
                        · exact workEv_of_install (hall e' h4)
                        · rcases List.mem_singleton.mp h4 with rfl
                          rfl

/-- Every cucumber invocation of a main.go run injects `DEVICE_TARGET` set to
the identifier of the resolved simulator descriptor. -/
theorem run_cuke (w : World) (a ev : List String)
    (h : Event.runCucumber a ev ∈ run w) :
    ∃ info, resolvedSim w = .ok info ∧ ("DEVICE_TARGET=" ++ info.id) ∈ ev := by
  unfold run at h
  cases hval : validate w.cfg with
  | some e =>
    simp only [hval] at h
    exact absurd h (by simp [registerFail])
  | none =>
    simp only [hval] at h
    cases hsq : w.simQuery with
    | error e =>
      simp only [hsq] at h
      exact absurd h (by simp [registerFail])
    | ok simMap =>
      simp only [hsq] at h
      cases hgsi : getSimulatorInfo simMap w.cfg.simulatorOsVersion w.cfg.simulatorDevice with
      | error e =>
        simp only [hgsi] at h
        exact absurd h (by simp [registerFail])
      | ok info =>
        simp only [hgsi] at h
        have hres : resolvedSim w = .ok info := by
          simp only [resolvedSim, hsq, hgsi]
        cases hse : w.setenvErr with
        | some e =>
          simp only [hse] at h
          simp [registerFail] at h
        | none =>
          simp only [hse] at h
          cases hrn : w.rubyNewErr with
          | some e =>
            simp only [hrn] at h
            simp [registerFail] at h
          | none =>
            simp only [hrn] at h
            cases hgs : gemfileStage w with
            | inl evs =>
              simp only [hgs] at h
              obtain ⟨m, hm⟩ := mainGemfileStage_inl hgs
              rw [hm] at h
              simp [registerFail] at h
            | inr lock =>
              simp only [hgs] at h
              cases his : installStage w (resolveVersion w lock).1 (resolveVersion w lock).2 with
              | inl evs =>
                simp only [his] at h
                obtain ⟨p, m, hpm, hall⟩ := mainInstallStage_inl his
                rw [hpm] at h
                rcases List.mem_cons.mp h with h1 | h1
                · cases h1
                · rcases List.mem_cons.mp h1 with h2 | h2
                  · cases h2
                  · rcases List.mem_append.mp h2 with h3 | h3
                    · exact absurd h3 (Part001.cuke_not_in_install hall)
                    · exact absurd h3 (Part001.cuke_not_in_registerFail m)
              | inr evs =>
                simp only [his] at h
                have hall := mainInstallStage_inr his
                cases hcc : w.cucumberCmdErr with
                | some e =>
                  simp only [hcc] at h
                  rcases List.mem_cons.mp h with h1 | h1
                  · cases h1
                  · rcases List.mem_cons.mp h1 with h2 | h2
                    · cases h2
                    · rcases List.mem_append.mp h2 with h3 | h3
                      · exact absurd h3 (Part001.cuke_not_in_install hall)
                      · exact absurd h3 (Part001.cuke_not_in_registerFail _)
                | none =>
                  simp only [hcc] at h
                  cases hce : w.cucumberErr with
                  | some e =>
                    simp only [hce] at h
                    rcases List.mem_cons.mp h with h1 | h1
                    · cases h1
                    · rcases List.mem_cons.mp h1 with h2 | h2
                      · cases h2
                      · rcases List.mem_append.mp h2 with h3 | h3
                        · exact absurd h3 (Part001.cuke_not_in_install hall)
                        · rcases List.mem_append.mp h3 with h4 | h4
                          · rcases List.mem_singleton.mp h4 with h5
                            injection h5 with h6 h7
                            refine ⟨info, hres, ?_⟩
                            rw [h7]
                            simp [cucumberEnvs]
                          · exact absurd h4 (Part001.cuke_not_in_registerFail _)
                  | none =>
                    simp only [hce] at h
                    rcases List.mem_cons.mp h with h1 | h1
                    · cases h1
                    · rcases List.mem_cons.mp h1 with h2 | h2
                      · cases h2
                      · rcases List.mem_append.mp h2 with h3 | h3
                        · exact absurd h3 (Part001.cuke_not_in_install hall)
                        · rcases List.mem_cons.mp h3 with h5 | h5
                          · injection h5 with h6 h7
                            refine ⟨info, hres, ?_⟩
                            rw [h7]
                            simp [cucumberEnvs]
                          · simp at h5

/-- Count bounds within the main.go installation stage: at most one
`bundle install` and each indexed gem-install command at most once. -/
theorem mainInstallStage_counts {w : World} {v : String} {ub : Bool} {evs : List Event}
    (h : installStage w v ub = .inl evs ∨ installStage w v ub = .inr evs) :
    evs.countP isBundleEv ≤ 1 ∧ (∀ i, evs.countP (isGemInstallEv i) ≤ 1) := by
  have hgemtail : ∀ {cmds : List (List String)} {evs' : List Event} (pre : List Event),
      (runInstalls w.gemInstallErr cmds 0 = .inl evs' ∨
        runInstalls w.gemInstallErr cmds 0 = .inr evs') →
      (∀ e ∈ pre, isBundleEv e = false ∧ ∀ i, isGemInstallEv i e = false) →
      (pre ++ evs').countP isBundleEv ≤ 1 ∧ (∀ i, (pre ++ evs').countP (isGemInstallEv i) ≤ 1) := by
    intro cmds evs' pre hri hpre
    have hz := runInstalls_countP_zero (q := isBundleEv) (fun _ _ => rfl)
      countP_registerFail_bundle hri
    have hpreB : pre.countP isBundleEv = 0 := by
      rw [List.countP_eq_zero]
      intro e he
      simp [(hpre e he).1]
    constructor
    · rw [List.countP_append]
      omega
    · intro i
      have hle := runInstalls_count_le i cmds 0 evs' hri
      have hpreG : pre.countP (isGemInstallEv i) = 0 := by
        rw [List.countP_eq_zero]
        intro e he
        simp [(hpre e he).2 i]
      rw [List.countP_append]
      omega
  have hrfB : ∀ (p : List Event) (m : String), (∀ e ∈ p, isInstallEv e = true) →
      (p ++ registerFail m).countP isBundleEv ≤ 1 ∧
      (∀ i, (p ++ registerFail m).countP (isGemInstallEv i) ≤ 1) → True := fun _ _ _ _ => trivial
  rcases h with h | h
  all_goals unfold installStage at h
  · by_cases hub : ub = true
    · rw [if_pos hub] at h
      cases hbc : w.bundleCmdErr with
      | some e =>
        simp only [hbc] at h
        injection h with h
        subst h
        exact ⟨by simp [registerFail, List.countP_cons, isBundleEv],
          fun i => by simp [registerFail, List.countP_cons, isGemInstallEv]⟩
      | none =>
        simp only [hbc] at h
        cases hbi : w.bundleInstallErr with
        | some e =>
          simp only [hbi] at h
          injection h with h
          subst h
          exact ⟨by simp [registerFail, List.countP_append, List.countP_cons, isBundleEv],
            fun i => by simp [registerFail, List.countP_append, List.countP_cons, isGemInstallEv]⟩
        | none =>
          simp only [hbi] at h
          cases h
    · rw [if_neg hub] at h
      by_cases hv : v ≠ ""
      · rw [if_pos hv] at h
        cases hgi : w.gemInstalled with
        | error e =>
          simp only [hgi] at h
          injection h with h
          subst h
          exact ⟨by simp [registerFail, List.countP_append, List.countP_cons, isBundleEv],
            fun i => by simp [registerFail, List.countP_append, List.countP_cons, isGemInstallEv]⟩
        | ok b =>
          simp only [hgi] at h
          cases b with
          | true => cases h
          | false =>
            cases hgc : w.gemInstallCmds with
            | error e =>
              simp only [hgc] at h
              injection h with h
              subst h
              exact ⟨by simp [registerFail, List.countP_append, List.countP_cons, isBundleEv],
                fun i => by simp [registerFail, List.countP_append, List.countP_cons, isGemInstallEv]⟩
            | ok cmds =>
              simp only [hgc] at h
              cases hri : runInstalls w.gemInstallErr cmds 0 with
              | inr evs' =>
                simp only [hri] at h
                cases h
              | inl evs' =>
                simp only [hri] at h
                injection h with h
                subst h
                exact hgemtail _ (Or.inl hri) (by
                  intro e he
                  rcases List.mem_cons.mp he with rfl | he2
                  · exact ⟨rfl, fun i => rfl⟩
                  · rcases List.mem_singleton.mp he2 with rfl
                    exact ⟨rfl, fun i => rfl⟩)
      · rw [if_neg hv] at h
        cases hgc : w.gemInstallCmds with
        | error e =>
          simp only [hgc] at h
          injection h with h
          subst h
          exact ⟨by simp [registerFail, List.countP_append, List.countP_cons, isBundleEv],
            fun i => by simp [registerFail, List.countP_append, List.countP_cons, isGemInstallEv]⟩
        | ok cmds =>
          simp only [hgc] at h
          cases hri : runInstalls w.gemInstallErr cmds 0 with
          | inr evs' =>
            simp only [hri] at h
            cases h
          | inl evs' =>
            simp only [hri] at h
            injection h with h
            subst h
            exact hgemtail [.gemInstallReq "calabash-cucumber" ""] (Or.inl hri) (by
              intro e he
              rcases List.mem_singleton.mp he with rfl
              exact ⟨rfl, fun i => rfl⟩)
  · by_cases hub : ub = true
    · rw [if_pos hub] at h
      cases hbc : w.bundleCmdErr with
      | some e =>
        simp only [hbc] at h
        cases h
      | none =>
        simp only [hbc] at h
        cases hbi : w.bundleInstallErr with
        | some e =>
          simp only [hbi] at h
          cases h
        | none =>
          simp only [hbi] at h
          injection h with h
          subst h
          exact ⟨by simp [List.countP_cons, isBundleEv],
            fun i => by simp [List.countP_cons, isGemInstallEv]⟩
    · rw [if_neg hub] at h
      by_cases hv : v ≠ ""
      · rw [if_pos hv] at h
        cases hgi : w.gemInstalled with
        | error e =>
          simp only [hgi] at h
          cases h
        | ok b =>
          simp only [hgi] at h
          cases b with
          | true =>
            injection h with h
            subst h
            exact ⟨by simp [List.countP_cons, isBundleEv],
              fun i => by simp [List.countP_cons, isGemInstallEv]⟩
          | false =>
            cases hgc : w.gemInstallCmds with
            | error e =>
              simp only [hgc] at h
              cases h
            | ok cmds =>
              simp only [hgc] at h
              cases hri : runInstalls w.gemInstallErr cmds 0 with
              | inl evs' =>
                simp only [hri] at h
                cases h
              | inr evs' =>
                simp only [hri] at h
                injection h with h
                subst h
                exact hgemtail _ (Or.inr hri) (by
                  intro e he
                  rcases List.mem_cons.mp he with rfl | he2
                  · exact ⟨rfl, fun i => rfl⟩
                  · rcases List.mem_singleton.mp he2 with rfl
                    exact ⟨rfl, fun i => rfl⟩)
      · rw [if_neg hv] at h
        cases hgc : w.gemInstallCmds with
        | error e =>
          simp only [hgc] at h
          cases h
        | ok cmds =>
          simp only [hgc] at h
          cases hri : runInstalls w.gemInstallErr cmds 0 with
          | inl evs' =>
            simp only [hri] at h
            cases h
          | inr evs' =>
            simp only [hri] at h
            injection h with h
            subst h
            exact hgemtail [.gemInstallReq "calabash-cucumber" ""] (Or.inr hri) (by
              intro e he
              rcases List.mem_singleton.mp he with rfl
              exact ⟨rfl, fun i => rfl⟩)

/-- The main.go installation stage emits no event satisfying a predicate
that is false on installation-class events and zero on `registerFail`
tails. -/
theorem mainInstallStage_countP_zero {w : World} {v : String} {ub : Bool} {evs : List Event}
    {q : Event → Bool} (hq : ∀ e, isInstallEv e = true → q e = false)
    (hrf : ∀ m, (registerFail m).countP q = 0)
    (h : installStage w v ub = Sum.inl evs ∨ installStage w v ub = Sum.inr evs) :
    evs.countP q = 0 := by
  rcases h with h | h
  · obtain ⟨p, m, rfl, hall⟩ := mainInstallStage_inl h
    rw [List.countP_append, hrf]
    have hp : p.countP q = 0 := by
      rw [List.countP_eq_zero]
      intro e he
      simp [hq e (hall e he)]
    omega
  · have hall := mainInstallStage_inr h
    rw [List.countP_eq_zero]
    intro e he
    simp [hq e (hall e he)]

/-- Generic count bound over a main.go run, mirroring the part_001 bound:
no copy events occur, the `setEnv` call is not counted, and the success tail
is the bare exit. -/
theorem mainRun_countP (w : World) (q : Event → Bool) (simqB instB cukeB : Nat)
    (hset : ∀ k val, q (Event.setEnv k val) = false)
    (hrf : ∀ m, (registerFail m).countP q = 0)
    (hexit : q (Event.exit 0) = false)
    (hinstB : ∀ {v : String} {ub : Bool} {evs : List Event},
      (installStage w v ub = Sum.inl evs ∨ installStage w v ub = Sum.inr evs) →
      evs.countP q ≤ instB)
    (hcuke : ∀ a ev, (if q (Event.runCucumber a ev) = true then 1 else 0) ≤ cukeB)
    (hsimq : (if q Event.runSimQuery = true then 1 else 0) ≤ simqB) :
    (run w).countP q ≤ simqB + instB + cukeB := by
  unfold run
  cases hval : validate w.cfg with
  | some e =>
    rw [hrf]
    omega
  | none =>
    cases hsq : w.simQuery with
    | error e =>
      rw [List.countP_append, hrf]
      have := hsimq
      simp only [List.countP_cons, List.countP_nil] at *
      omega
    | ok simMap =>
      dsimp only
      cases hgsi : getSimulatorInfo simMap w.cfg.simulatorOsVersion w.cfg.simulatorDevice with
      | error e =>
        rw [List.countP_append, hrf]
        have := hsimq
        simp only [List.countP_cons, List.countP_nil] at *
        omega
      | ok info =>
        dsimp only
        cases hse : w.setenvErr with
        | some e =>
          rw [List.countP_append, List.countP_cons, List.countP_cons, hrf]
          have := hsimq
          simp only [List.countP_cons, List.countP_nil, hset, Bool.false_eq_true, if_false] at *
          omega
        | none =>
          dsimp only
          cases hrn : w.rubyNewErr with
          | some e =>
            rw [List.countP_append, List.countP_cons, List.countP_cons, hrf]
            have := hsimq
            simp only [List.countP_cons, List.countP_nil, hset, Bool.false_eq_true, if_false] at *
            omega
          | none =>
            dsimp only
            cases hgs : gemfileStage w with
            | inl evs =>
              dsimp only
              obtain ⟨m, hm⟩ := mainGemfileStage_inl hgs
              rw [hm, List.countP_append, List.countP_cons, List.countP_cons, hrf]
              have := hsimq
              simp only [List.countP_cons, List.countP_nil, hset, Bool.false_eq_true, if_false] at *
              omega
            | inr lock =>
              dsimp only
              cases his : installStage w (resolveVersion w lock).1 (resolveVersion w lock).2 with
              | inl evs =>
                dsimp only
                have hib := hinstB (Or.inl his)
                rw [List.countP_append, List.countP_cons, List.countP_cons]
                have := hsimq
                simp only [List.countP_cons, List.countP_nil, hset, Bool.false_eq_true, if_false] at *
                omega
              | inr evs =>
                dsimp only
                have hib := hinstB (Or.inr his)
                cases hcc : w.cucumberCmdErr with
                | some e =>
                  rw [List.countP_append, List.countP_cons, List.countP_cons,
                    List.countP_append, hrf]
                  have := hsimq
                  simp only [List.countP_cons, List.countP_nil, hset, Bool.false_eq_true, if_false] at *
                  omega
                | none =>
                  dsimp only
                  cases hce : w.cucumberErr with
                  | some e =>
                    rw [List.countP_append, List.countP_cons, List.countP_cons,
                      List.countP_append, List.countP_append, hrf]
                    have h1 := hsimq
                    have h2 := hcuke (cucumberArgs (resolveVersion w lock).2)
                      (cucumberEnvs w (resolveVersion w lock).2 info)
                    simp only [List.countP_cons, List.countP_nil, hset, Bool.false_eq_true, if_false] at *
                    omega
                  | none =>
                    rw [List.countP_append, List.countP_cons, List.countP_cons,
                      List.countP_append]
                    have h1 := hsimq
                    have h2 := hcuke (cucumberArgs (resolveVersion w lock).2)
                      (cucumberEnvs w (resolveVersion w lock).2 info)
                    simp only [List.countP_cons, List.countP_nil, hset, hexit,
                      Bool.false_eq_true, if_false] at *
                    omega

end MainGo

/-! ### Claims about the run behaviour -/

/-- A main.go run whose external commands all succeed. -/
def mainGoWorld : MainGo.World :=
  { cfg := { simulatorDevice := "iPhone 6", simulatorOsVersion := "iOS 8.4",
             calabashCucumberVersion := "", gemFilePath := "" }
    simQuery := .ok [("iOS 8.4", [⟨"iPhone 6", "UDID-1", "Shutdown"⟩])]
    setenvErr := none
    rubyNewErr := none
    gemfileExists := .ok false
    gemfileLockExists := .ok false
    lockContent := .ok ""
    gemInstalled := .ok true
    gemInstallCmds := .ok [["gem", "install", "calabash-cucumber"]]
    gemInstallErr := fun _ => none
    bundleCmdErr := none
    bundleInstallErr := none
    cucumberCmdErr := none
    cucumberErr := none }

/-- C1: for every run of either Go variant and every failure point, the
program logs an error, exports `BITRISE_XAMARIN_TEST_RESULT` with value
`failed` via envman, and terminates immediately with exit code 1, executing
no subsequent step: whenever exit code 1 occurs in a trace, the trace ends
with exactly the error log, the failure export and the exit, in that order. -/
theorem claim_C1 (w₁ : Part001.World) (w₂ : MainGo.World) :
    (Event.exit 1 ∈ Part001.run w₁ →
      ∃ p m, Part001.run w₁ = p ++
        [Event.logError m, Event.exportEnv "BITRISE_XAMARIN_TEST_RESULT" "failed", Event.exit 1]) ∧
    (Event.exit 1 ∈ MainGo.run w₂ →
      ∃ p m, MainGo.run w₂ = p ++
        [Event.logError m, Event.exportEnv "BITRISE_XAMARIN_TEST_RESULT" "failed", Event.exit 1]) := by
  constructor
  · intro h
    rcases Part001.run_shape w₁ with ⟨p, m, hpm, -⟩ | ⟨p, hp, hall⟩
    · exact ⟨p, m, hpm⟩
    · exfalso
      rw [hp] at h
      rcases List.mem_append.mp h with h1 | h1
      · have hw := hall _ h1
        simp [workEv] at hw
      · simp at h1
  · intro h
    rcases MainGo.mainRun_shape w₂ with ⟨p, m, hpm, -⟩ | ⟨p, hp, hall⟩
    · exact ⟨p, m, hpm⟩
    · exfalso
      rw [hp] at h
      rcases List.mem_append.mp h with h1 | h1
      · have hw := hall _ h1
        simp [workEv] at hw
      · simp at h1

theorem claim_C1_witness :
    (Event.exit 1 ∈ Part001.run { okWorld1 with cucumberErr := some "tests failed" }) ∧
    (∃ p m, Part001.run { okWorld1 with cucumberErr := some "tests failed" } = p ++
      [Event.logError m, Event.exportEnv "BITRISE_XAMARIN_TEST_RESULT" "failed", Event.exit 1]) ∧
    (Event.exit 1 ∈ MainGo.run { mainGoWorld with cucumberErr := some "boom" }) ∧
    (∃ p m, MainGo.run { mainGoWorld with cucumberErr := some "boom" } = p ++
      [Event.logError m, Event.exportEnv "BITRISE_XAMARIN_TEST_RESULT" "failed", Event.exit 1]) :=
  ⟨by decide,
    (claim_C1 { okWorld1 with cucumberErr := some "tests failed" }
      { mainGoWorld with cucumberErr := some "boom" }).1 (by decide),
    by decide,
    (claim_C1 { okWorld1 with cucumberErr := some "tests failed" }
      { mainGoWorld with cucumberErr := some "boom" }).2 (by decide)⟩

/-- C2 fails as stated on the main.go variant: this successful run invokes
cucumber, the command succeeds, the process exits with code 0, and no
`BITRISE_XAMARIN_TEST_RESULT` export of any value happens: the pass/fail
key is recorded on the failure path only. -/
theorem claim_C2_counterexample :
    MainGo.run mainGoWorld =
      [.runSimQuery, .setEnv "DEVICE_TARGET" "UDID-1",
       .gemInstallReq "calabash-cucumber" "",
       .runGemInstall 0 ["gem", "install", "calabash-cucumber"],
       .runCucumber ["cucumber"] ["DEVICE_TARGET=UDID-1"], .exit 0] ∧
    mainGoWorld.cucumberErr = none ∧
    (∀ v, Event.exportEnv "BITRISE_XAMARIN_TEST_RESULT" v ∉ MainGo.run mainGoWorld) := by
  have htr : MainGo.run mainGoWorld =
      [.runSimQuery, .setEnv "DEVICE_TARGET" "UDID-1",
       .gemInstallReq "calabash-cucumber" "",
       .runGemInstall 0 ["gem", "install", "calabash-cucumber"],
       .runCucumber ["cucumber"] ["DEVICE_TARGET=UDID-1"], .exit 0] := by decide
  refine ⟨htr, rfl, ?_⟩
  intro v hv
  rw [htr] at hv
  simp at hv

/-- C2 (amended): in the part_001 (and part_000) variants, every run whose
cucumber command is invoked and completes successfully exports
`BITRISE_XAMARIN_TEST_RESULT` with value `succeeded` via envman and then
exits with code 0; the main.go variant performs no export on its success
path, recording the key only on failure. -/
theorem claim_C2_amended (w : Part001.World) (hok : w.cucumberErr = none)
    (hcuke : ∃ a ev, Event.runCucumber a ev ∈ Part001.run w) :
    ∃ p, Part001.run w = p ++
      [Event.exportEnv "BITRISE_XAMARIN_TEST_RESULT" "succeeded", Event.exit 0] := by
  obtain ⟨a, ev, h⟩ := hcuke
  exact (Part001.run_cuke_master w a ev h).2 hok

theorem claim_C2_amended_witness :
    okWorld1.cucumberErr = none ∧
    (∃ a ev, Event.runCucumber a ev ∈ Part001.run okWorld1) ∧
    ∃ p, Part001.run okWorld1 = p ++
      [Event.exportEnv "BITRISE_XAMARIN_TEST_RESULT" "succeeded", Event.exit 0] :=
  ⟨rfl, ⟨["cucumber", "_0.20.5_"], ["DEVICE_TARGET=UDID-1"], by decide⟩,
    claim_C2_amended okWorld1 rfl
      ⟨["cucumber", "_0.20.5_"], ["DEVICE_TARGET=UDID-1"], by decide⟩⟩

/-- C5: when the explicit calabash-cucumber version input is non-empty, the
version used for installation (the gem check and the GemInstall request) and
for the cucumber invocation (the `_version_` argument) is the explicit input
value regardless of any Gemfile.lock content, no `bundle install` runs, and
the cucumber command is not prefixed with `bundle exec`. -/
theorem claim_C5 (w : Part001.World) (hv : w.cfg.calabashCucumberVersion ≠ "") :
    (Part001.run w).countP isBundleEv = 0 ∧
    (∀ gm ver, Event.checkGemInstalled gm ver ∈ Part001.run w →
      gm = "calabash-cucumber" ∧ ver = w.cfg.calabashCucumberVersion) ∧
    (∀ gm ver, Event.gemInstallReq gm ver ∈ Part001.run w →
      gm = "calabash-cucumber" ∧ ver = w.cfg.calabashCucumberVersion) ∧
    (∀ a ev, Event.runCucumber a ev ∈ Part001.run w →
      ∃ opts, a = ["cucumber", "_" ++ w.cfg.calabashCucumberVersion ++ "_"] ++ opts) := by
  have hbundle : (Part001.run w).countP isBundleEv = 0 := by
    have h := Part001.run_countP w isBundleEv 0 0 0
      (fun e he => copy_not_bundle he) countP_registerFail_bundle rfl rfl
      (by
        intro g ub evs hio
        have hz := (Part001.installStage_explicit hv hio).1
        omega)
      (fun a ev => by simp [isBundleEv])
      (by simp [isBundleEv])
    omega
  have hbad : (Part001.run w).countP
      (fun e => match e with
        | .checkGemInstalled gm ver =>
          !(gm == "calabash-cucumber" && ver == w.cfg.calabashCucumberVersion)
        | .gemInstallReq gm ver =>
          !(gm == "calabash-cucumber" && ver == w.cfg.calabashCucumberVersion)
        | _ => false) = 0 := by
    have h := Part001.run_countP w
      (fun e => match e with
        | .checkGemInstalled gm ver =>
          !(gm == "calabash-cucumber" && ver == w.cfg.calabashCucumberVersion)
        | .gemInstallReq gm ver =>
          !(gm == "calabash-cucumber" && ver == w.cfg.calabashCucumberVersion)
        | _ => false) 0 0 0
      (fun e he => by cases e <;> simp_all [isCopyEv])
      (fun m => by simp [registerFail, List.countP_cons])
      rfl rfl
      (by
        intro g ub evs hio
        obtain ⟨-, hcheck, hreq⟩ := Part001.installStage_explicit hv hio
        have hz : evs.countP (fun e => match e with
            | Event.checkGemInstalled gm ver =>
              !(gm == "calabash-cucumber" && ver == w.cfg.calabashCucumberVersion)
            | Event.gemInstallReq gm ver =>
              !(gm == "calabash-cucumber" && ver == w.cfg.calabashCucumberVersion)
            | _ => false) = 0 := by
          rw [List.countP_eq_zero]
          intro e he
          cases e with
          | checkGemInstalled gm ver =>
            obtain ⟨rfl, rfl⟩ := hcheck gm ver he
            simp
          | gemInstallReq gm ver =>
            obtain ⟨rfl, rfl⟩ := hreq gm ver he
            simp
          | logError m => simp
          | exportEnv k v => simp
          | setEnv k v => simp
          | runSimQuery => simp
          | copyDir s d b => simp
          | runGemInstall i c => simp
          | runBundleInstall e2 => simp
          | runCucumber a2 e2 => simp
          | exit c => simp
        omega)
      (fun a ev => by simp)
      (by simp)
    omega
  have hnone := List.countP_eq_zero.mp hbad
  refine ⟨hbundle, ?_, ?_, ?_⟩
  · intro gm ver hmem
    have hb := hnone _ hmem
    simpa using hb
  · intro gm ver hmem
    have hb := hnone _ hmem
    simpa using hb
  · intro a ev hm
    obtain ⟨⟨info, options, ub, g, ap, -, -, ha, -⟩, -⟩ := Part001.run_cuke_master w a ev hm
    refine ⟨options, ?_⟩
    rw [ha]
    simp [Part001.cucumberArgs, hv]

theorem claim_C5_witness :
    okWorld1.cfg.calabashCucumberVersion ≠ "" ∧
    (Part001.run okWorld1).countP isBundleEv = 0 ∧
    (∀ gm ver, Event.checkGemInstalled gm ver ∈ Part001.run okWorld1 →
      gm = "calabash-cucumber" ∧ ver = okWorld1.cfg.calabashCucumberVersion) ∧
    (∀ gm ver, Event.gemInstallReq gm ver ∈ Part001.run okWorld1 →
      gm = "calabash-cucumber" ∧ ver = okWorld1.cfg.calabashCucumberVersion) ∧
    (∀ a ev, Event.runCucumber a ev ∈ Part001.run okWorld1 →
      ∃ opts, a = ["cucumber", "_" ++ okWorld1.cfg.calabashCucumberVersion ++ "_"] ++ opts) :=
  ⟨by decide, claim_C5 okWorld1 (by decide)⟩

/-- C6: no external command is retried: across any run of either Go variant
the simulator query, the `bundle install` call and the cucumber call each
occur at most once, and every individual gem-install command (by its index)
runs at most once. -/
theorem claim_C6 (w : Part001.World) (w₂ : MainGo.World) :
    ((Part001.run w).countP isSimQueryEv ≤ 1 ∧
     (Part001.run w).countP isBundleEv ≤ 1 ∧
     (Part001.run w).countP isCucumberEv ≤ 1 ∧
     (∀ i, (Part001.run w).countP (isGemInstallEv i) ≤ 1)) ∧
    ((MainGo.run w₂).countP isSimQueryEv ≤ 1 ∧
     (MainGo.run w₂).countP isBundleEv ≤ 1 ∧
     (MainGo.run w₂).countP isCucumberEv ≤ 1 ∧
     (∀ i, (MainGo.run w₂).countP (isGemInstallEv i) ≤ 1)) := by
  refine ⟨⟨?_, ?_, ?_, ?_⟩, ⟨?_, ?_, ?_, ?_⟩⟩
  · have h := Part001.run_countP w isSimQueryEv 1 0 0
      (fun e he => copy_not_simq he) countP_registerFail_simq rfl rfl
      (by
        intro g ub evs hio
        have hz := Part001.installStage_countP_zero (q := isSimQueryEv)
          (fun e he => install_not_simq he) countP_registerFail_simq hio
        omega)
      (fun a ev => by simp [isSimQueryEv])
      (by simp [isSimQueryEv])
    omega
  · have h := Part001.run_countP w isBundleEv 0 1 0
      (fun e he => copy_not_bundle he) countP_registerFail_bundle rfl rfl
      (by
        intro g ub evs hio
        rcases hio with hi | hi
        · obtain ⟨-, -, -, -, hb, -⟩ := Part001.installStage_inl hi
          exact hb
        · exact (Part001.installStage_inr hi).2.1)
      (fun a ev => by simp [isBundleEv])
      (by simp [isBundleEv])
    omega
  · have h := Part001.run_countP w isCucumberEv 0 0 1
      (fun e he => copy_not_cuke he) countP_registerFail_cuke rfl rfl
      (by
        intro g ub evs hio
        have hz := Part001.installStage_countP_zero (q := isCucumberEv)
          (fun e he => install_not_cuke he) countP_registerFail_cuke hio
        omega)
      (fun a ev => by simp [isCucumberEv])
      (by simp [isCucumberEv])
    omega
  · intro i
    have h := Part001.run_countP w (isGemInstallEv i) 0 1 0
      (fun e he => copy_not_gem i he)
      (countP_registerFail_gem i) rfl rfl
      (by
        intro g ub evs hio
        rcases hio with hi | hi
        · obtain ⟨-, -, -, -, -, hg⟩ := Part001.installStage_inl hi
          exact hg i
        · exact (Part001.installStage_inr hi).2.2 i)
      (fun a ev => by simp [isGemInstallEv])
      (by simp [isGemInstallEv])
    omega
  · have h := MainGo.mainRun_countP w₂ isSimQueryEv 1 0 0
      (fun k val => rfl) countP_registerFail_simq rfl
      (by
        intro v ub evs hio
        have hz := MainGo.mainInstallStage_countP_zero (q := isSimQueryEv)
          (fun e he => install_not_simq he) countP_registerFail_simq hio
        omega)
      (fun a ev => by simp [isSimQueryEv])
      (by simp [isSimQueryEv])
    omega
  · have h := MainGo.mainRun_countP w₂ isBundleEv 0 1 0
      (fun k val => rfl) countP_registerFail_bundle rfl
      (by
        intro v ub evs hio
        exact (MainGo.mainInstallStage_counts hio).1)
      (fun a ev => by simp [isBundleEv])
      (by simp [isBundleEv])
    omega
  · have h := MainGo.mainRun_countP w₂ isCucumberEv 0 0 1
      (fun k val => rfl) countP_registerFail_cuke rfl
      (by
        intro v ub evs hio
        have hz := MainGo.mainInstallStage_countP_zero (q := isCucumberEv)
          (fun e he => install_not_cuke he) countP_registerFail_cuke hio
        omega)
      (fun a ev => by simp [isCucumberEv])
      (by simp [isCucumberEv])
    omega
  · intro i
    have h := MainGo.mainRun_countP w₂ (isGemInstallEv i) 0 1 0
      (fun k val => rfl) (countP_registerFail_gem i) rfl
      (by
        intro v ub evs hio
        exact (MainGo.mainInstallStage_counts hio).2 i)
      (fun a ev => by simp [isGemInstallEv])
      (by simp [isGemInstallEv])
    omega

/-- C7: in every run of either Go variant that reaches the cucumber
invocation, the environment injected into the cucumber child process
contains `DEVICE_TARGET` set exactly to the identifier of the resolved
simulator descriptor, unchanged. -/
theorem claim_C7 (w₁ : Part001.World) (w₂ : MainGo.World) :
    (∀ a ev, Event.runCucumber a ev ∈ Part001.run w₁ →
      ∃ info, Part001.resolvedSim w₁ = .ok info ∧ ("DEVICE_TARGET=" ++ info.id) ∈ ev) ∧
    (∀ a ev, Event.runCucumber a ev ∈ MainGo.run w₂ →
      ∃ info, MainGo.resolvedSim w₂ = .ok info ∧ ("DEVICE_TARGET=" ++ info.id) ∈ ev) := by
  constructor
  · intro a ev h
    obtain ⟨⟨info, options, ub, g, ap, hinfo, -, -, hev⟩, -⟩ := Part001.run_cuke_master w₁ a ev h
    refine ⟨info, hinfo, ?_⟩
    rw [hev]
    simp [Part001.cucumberEnvs]
  · intro a ev h
    exact MainGo.run_cuke w₂ a ev h

theorem claim_C7_witness :
    (Event.runCucumber ["cucumber", "_0.20.5_"] ["DEVICE_TARGET=UDID-1"] ∈ Part001.run okWorld1) ∧
    (∃ info, Part001.resolvedSim okWorld1 = .ok info ∧
      ("DEVICE_TARGET=" ++ info.id) ∈ ["DEVICE_TARGET=UDID-1"]) ∧
    (Event.runCucumber ["cucumber"] ["DEVICE_TARGET=UDID-1"] ∈ MainGo.run mainGoWorld) ∧
    (∃ info, MainGo.resolvedSim mainGoWorld = .ok info ∧
      ("DEVICE_TARGET=" ++ info.id) ∈ ["DEVICE_TARGET=UDID-1"]) :=
  ⟨by decide,
    (claim_C7 okWorld1 mainGoWorld).1 ["cucumber", "_0.20.5_"] ["DEVICE_TARGET=UDID-1"] (by decide),
    by decide,
    (claim_C7 okWorld1 mainGoWorld).2 ["cucumber"] ["DEVICE_TARGET=UDID-1"] (by decide)⟩

/-- C10: the only post-validation mutation of the configuration record is
the app-path rewrite: when the app bundle contains both `.monotouch-32` and
`.monotouch-64` directories, AppPath is replaced by the copy of the app in
the fresh temporary directory; otherwise it is unchanged, and every other
configuration field is unchanged in the record the rest of the run uses. -/
theorem claim_C10 (w : Part001.World) (evs : List Event) (newPath : String)
    (h : Part001.monotouchStage w = .inr (evs, newPath)) :
    ({ w.cfg with appPath := newPath } : Part001.ConfigsModel).workDir = w.cfg.workDir ∧
    ({ w.cfg with appPath := newPath } : Part001.ConfigsModel).gemFilePath = w.cfg.gemFilePath ∧
    ({ w.cfg with appPath := newPath } : Part001.ConfigsModel).options = w.cfg.options ∧
    ({ w.cfg with appPath := newPath } : Part001.ConfigsModel).simulatorDevice = w.cfg.simulatorDevice ∧
    ({ w.cfg with appPath := newPath } : Part001.ConfigsModel).simulatorOsVersion = w.cfg.simulatorOsVersion ∧
    ({ w.cfg with appPath := newPath } : Part001.ConfigsModel).calabashCucumberVersion = w.cfg.calabashCucumberVersion ∧
    ((w.cfg.appPath ≠ "" ∧ w.mono32IsDir = .ok true ∧ w.mono64IsDir = .ok true) →
      ∃ tmp, w.tmpDir = .ok tmp ∧ newPath = filepathJoin tmp (filepathBase w.cfg.appPath)) ∧
    ((w.cfg.appPath = "" ∨ (∃ b32 b64, w.mono32IsDir = .ok b32 ∧ w.mono64IsDir = .ok b64 ∧
        (b32 && b64) = false)) → newPath = w.cfg.appPath) := by
  refine ⟨rfl, rfl, rfl, rfl, rfl, rfl, ?_, ?_⟩
  · rintro ⟨hap, h32, h64⟩
    unfold Part001.monotouchStage at h
    rw [if_neg hap] at h
    simp only [h32, h64, Bool.and_self, if_true] at h
    cases h64b : w.is64Bit with
    | error e =>
      rw [h64b] at h
      simp only at h
      cases h
    | ok is64 =>
      simp only [h64b] at h
      cases htmp : w.tmpDir with
      | error e =>
        simp only [htmp] at h
        cases h
      | ok tmp =>
        simp only [htmp] at h
        cases hca : w.copyAppErr with
        | some e =>
          simp only [hca] at h
          cases h
        | none =>
          simp only [hca] at h
          cases hcm : w.copyMonoErr with
          | some e =>
            simp only [hcm] at h
            cases h
          | none =>
            simp only [hcm, Sum.inr.injEq, Prod.mk.injEq] at h
            exact ⟨tmp, rfl, h.2.symm⟩
  · intro hcase
    unfold Part001.monotouchStage at h
    rcases hcase with hap | ⟨b32, b64, h32, h64, hff⟩
    · rw [if_pos hap] at h
      simp only [Sum.inr.injEq, Prod.mk.injEq] at h
      rw [← h.2, hap]
    · by_cases hap : w.cfg.appPath = ""
      · rw [if_pos hap] at h
        simp only [Sum.inr.injEq, Prod.mk.injEq] at h
        exact h.2.symm
      · rw [if_neg hap] at h
        simp only [h32, h64] at h
        rw [if_neg (by simp [hff])] at h
        simp only [Sum.inr.injEq, Prod.mk.injEq] at h
        exact h.2.symm

/-- A part_001 world whose app bundle carries both monotouch directories. -/
def monoWorld : Part001.World :=
  { okWorld1 with
    cfg := { okWorld1.cfg with appPath := "/app/My.app" }
    mono32IsDir := .ok true
    mono64IsDir := .ok true }

theorem claim_C10_witness :
    Part001.monotouchStage monoWorld =
      .inr ([.copyDir "/app/My.app" "/tmp/x" false,
        .copyDir "/tmp/x/My.app/.monotouch-64" "/tmp/x/My.app" true], "/tmp/x/My.app") ∧
    (monoWorld.cfg.appPath ≠ "" ∧ monoWorld.mono32IsDir = .ok true ∧
      monoWorld.mono64IsDir = .ok true) ∧
    (∃ tmp, monoWorld.tmpDir = .ok tmp ∧
      "/tmp/x/My.app" = filepathJoin tmp (filepathBase monoWorld.cfg.appPath)) :=
  ⟨by decide, ⟨by decide, rfl, rfl⟩,
    (claim_C10 monoWorld
      [.copyDir "/app/My.app" "/tmp/x" false,
       .copyDir "/tmp/x/My.app/.monotouch-64" "/tmp/x/My.app" true]
      "/tmp/x/My.app" (by decide)).2.2.2.2.2.2.1 ⟨by decide, rfl, rfl⟩⟩

end Calabash
